import Mathlib

/-!
# Verification of the tabular aggregation-and-export pipelines

Shallow embedding of the data-transformation scripts of this repository
(policy-domain classification, grouped aggregation, rounding at export,
JSON writing, download retry loop), with theorems settling the spec's
claims about them.

Modelling conventions:
* Python machine floats are modelled as exact rationals (`ℚ`); `round`
  is round-half-to-even on rationals.
* A Python function that can raise an uncaught exception is modelled
  with an `Option` result (`none` = the exception).
* Python cell values that may be missing/NaN, numeric or textual are
  modelled by `PyVal`.
-/

/-- Python truthiness of an optional string (`None` and `""` are falsy). -/
def pyTruthy : Option String → Bool
  | none => false
  | some s => !(s == "")

/-- Splitting a character list on whitespace runs, dropping empty pieces
(the characters of the current piece are carried reversed). -/
def splitWsAux : List Char → List Char → List String
  | [], [] => []
  | [], cur => [⟨cur.reverse⟩]
  | c :: cs, cur =>
    if c.isWhitespace then
      if cur.isEmpty then splitWsAux cs [] else (⟨cur.reverse⟩ : String) :: splitWsAux cs []
    else splitWsAux cs (c :: cur)

/-- Python `str.split()` with no argument: split on whitespace runs,
dropping empty pieces. -/
def pySplitWs (s : String) : List String :=
  splitWsAux s.data []

/-- Python `c in s` for a single character. -/
def pyContains (s : String) (c : Char) : Bool := s.data.contains c

/-- Python `s[:n]`. -/
def pyTake (s : String) (n : Nat) : String := ⟨s.data.take n⟩

/-- `s.split()[0] if ' ' in s else s[:3]` — the subdomain-code computation of
`classify_project_by_policy_domain`. `none` models the `IndexError` raised by
`[0]` when `split()` returns an empty list. -/
def pyTok3 (s : String) : Option String :=
  if pyContains s ' ' then (pySplitWs s).head? else some (pyTake s 3)

/-- `s.split()[0] if ' ' in s else s[:2]` — the domain-code computation. -/
def pyTok2 (s : String) : Option String :=
  if pyContains s ' ' then (pySplitWs s).head? else some (pyTake s 2)

/-- Lookup in a Python dict literal given as an association list; a later
binding of the same key overwrites an earlier one, as in a dict literal. -/
def dictLookup (m : List (String × String)) (k : String) : Option String :=
  (m.reverse.find? (fun p => p.1 == k)).map (fun p => p.2)

/-- `if category and category not in categories: categories.append(category)`. -/
def appendCat (cats : List String) (entry : Option String) : List String :=
  match entry with
  | some c => if (c != "") && !(cats.contains c) then cats ++ [c] else cats
  | none => cats

/-- `classify_project_by_policy_domain` of `category_keywords.py`, with the
module-level mapping dict passed explicitly.  Result `none` models the
`IndexError` that `split()[0]` raises on a whitespace-only key containing a
space. -/
def classify_project_by_policy_domain (m : List (String × String))
    (beleidsdomein beleidssubdomein : Option String) : Option (List String) :=
  if !(pyTruthy beleidsdomein) then some ["overige"]
  else
    let subStage : Option (List String) :=
      if pyTruthy beleidssubdomein then
        let s := beleidssubdomein.getD ""
        let cats := appendCat [] (dictLookup m s)
        if cats.isEmpty then
          match pyTok3 s with
          | none => none
          | some p => some (appendCat cats (dictLookup m p))
        else some cats
      else some []
    match subStage with
    | none => none
    | some cats =>
      if cats.isEmpty then
        let d := beleidsdomein.getD ""
        let cats3 := appendCat cats (dictLookup m d)
        if cats3.isEmpty then
          match pyTok2 d with
          | none => none
          | some p =>
            let cats4 := appendCat cats3 (dictLookup m p)
            some (if cats4.isEmpty then ["overige"] else cats4)
        else some cats3
      else some (if cats.isEmpty then ["overige"] else cats)

/-- `POLICY_DOMAIN_MAPPING` of `category_keywords.py`, verbatim. -/
def POLICY_DOMAIN_MAPPING : List (String × String) := [
  ("02 Zich verplaatsen en mobiliteit", "wegenbouw"),
  ("02", "wegenbouw"),
  ("031 Waterbeheer", "riolering"),
  ("031", "riolering"),
  ("03 Natuur en milieubeheer", "groen"),
  ("03", "groen"),
  ("068 Groene ruimte", "groen"),
  ("068", "groen"),
  ("034 Bescherming van biodiversiteit, landschappen en bodem", "groen"),
  ("034", "groen"),
  ("030 Afval- en materialenbeheer", "groen"),
  ("030", "groen"),
  ("032 Vermindering van de milieuverontreiniging", "groen"),
  ("032", "groen"),
  ("035 Klimaat en energie", "gebouwen"),
  ("035", "gebouwen"),
  ("038/9 Overige milieubescherming", "groen"),
  ("038", "groen"),
  ("039", "groen"),
  ("099 Begraafplaatsen, crematoria en lijkbezorging", "groen"),
  ("099", "groen"),
  ("07 Cultuur en vrije tijd", "cultuur"),
  ("07", "cultuur"),
  ("070 Culturele instellingen", "cultuur"),
  ("070", "cultuur"),
  ("071 Evenementen", "cultuur"),
  ("071", "cultuur"),
  ("072 Erfgoed", "cultuur"),
  ("072", "cultuur"),
  ("073 Overig kunst- en cultuurbeleid", "cultuur"),
  ("073", "cultuur"),
  ("074 Sport", "sport"),
  ("074", "sport"),
  ("075 Jeugd", "zorg"),
  ("075", "zorg"),
  ("079 Erediensten en niet-confessionele levensbeschouwelijke gemeenschappen", "cultuur"),
  ("079", "cultuur"),
  ("052 Toerisme", "cultuur"),
  ("052", "cultuur"),
  ("08 Leren en onderwijs", "scholenbouw"),
  ("08", "scholenbouw"),
  ("080 Basisonderwijs", "scholenbouw"),
  ("080", "scholenbouw"),
  ("081 Secundair onderwijs", "scholenbouw"),
  ("081", "scholenbouw"),
  ("082 Deeltijds kunstonderwijs", "scholenbouw"),
  ("082", "scholenbouw"),
  ("083 Hoger en Volwassenenonderwijs", "scholenbouw"),
  ("083", "scholenbouw"),
  ("086 Ondersteunende diensten voor het onderwijs", "scholenbouw"),
  ("086", "scholenbouw"),
  ("087/8 Algemeen onderwijsbeleid", "scholenbouw"),
  ("087", "scholenbouw"),
  ("088", "scholenbouw"),
  ("09 Zorg en opvang", "zorg"),
  ("09", "zorg"),
  ("090 Sociaal beleid", "zorg"),
  ("090", "zorg"),
  ("091 Ziekte- en invaliditeit", "zorg"),
  ("091", "zorg"),
  ("093 Sociale huisvesting", "zorg"),
  ("093", "zorg"),
  ("094 Gezin en kinderen", "zorg"),
  ("094", "zorg"),
  ("095 Ouderen", "zorg"),
  ("095", "zorg"),
  ("098 Dienstverlening inzake volksgezondheid", "zorg"),
  ("098", "zorg"),
  ("04 Veiligheidszorg", "veiligheid"),
  ("04", "veiligheid"),
  ("040 Politiediensten", "veiligheid"),
  ("040", "veiligheid"),
  ("041 Brandweer", "veiligheid"),
  ("041", "veiligheid"),
  ("042/4 Overige hulpdiensten", "veiligheid"),
  ("042", "veiligheid"),
  ("045/9 Overige elementen van openbare orde en veiligheid", "veiligheid"),
  ("045", "veiligheid"),
  ("06 Wonen en ruimtelijke ordening", "gebouwen"),
  ("06", "gebouwen"),
  ("060 Ruimtelijke planning", "ruimtelijke-ordening"),
  ("060", "ruimtelijke-ordening"),
  ("061 Gebiedsontwikkeling", "ruimtelijke-ordening"),
  ("061", "ruimtelijke-ordening"),
  ("067 Straatverlichting", "verlichting"),
  ("067", "verlichting"),
  ("062 Woonbeleid", "gebouwen"),
  ("062", "gebouwen"),
  ("063 Watervoorziening", "gebouwen"),
  ("063", "gebouwen"),
  ("064 Elektriciteitsvoorziening", "gebouwen"),
  ("064", "gebouwen"),
  ("065 Gasvoorziening", "gebouwen"),
  ("065", "gebouwen"),
  ("066 Communicatievoorzieningen", "gebouwen"),
  ("066", "gebouwen"),
  ("069 Overige nutsvoorzieningen", "gebouwen"),
  ("069", "gebouwen"),
  ("00 Algemene financiering", "werking"),
  ("00", "werking"),
  ("010 Politieke organen", "werking"),
  ("010", "werking"),
  ("011 Algemene diensten", "werking"),
  ("011", "werking"),
  ("013 Administratieve dienstverlening", "werking"),
  ("013", "werking"),
  ("015 Internationale samenwerking", "werking"),
  ("015", "werking"),
  ("016 Hulp aan het buitenland", "werking"),
  ("016", "werking"),
  ("017 Binnengemeentelijke decentralisatie", "werking"),
  ("017", "werking"),
  ("019 Overig algemeen bestuur", "werking"),
  ("019", "werking"),
  ("050 Handel en middenstand", "werking"),
  ("050", "werking"),
  ("051 Nijverheid", "werking"),
  ("051", "werking"),
  ("053 Land-, tuin- en bosbouw", "werking"),
  ("053", "werking"),
  ("054 Visvangst", "werking"),
  ("054", "werking"),
  ("055 Werkgelegenheid", "werking"),
  ("055", "werking"),
  ("059 Overige economische zaken", "werking"),
  ("059", "werking")]

/-- The spec's cascade, written from its words: (1) exact secondary match,
(2) secondary-code match, (3) exact primary match, (4) primary-code match,
(5) the default category; the first step that finds a mapping entry
determines the result. -/
def cascade_spec (m : List (String × String)) (dom : String) (sub : Option String) :
    List String :=
  match (match sub with | none => none | some s => dictLookup m s) with
  | some c => [c]
  | none =>
    match (match sub with | none => none | some s => (pyTok3 s).bind (fun p => dictLookup m p)) with
    | some c => [c]
    | none =>
      match dictLookup m dom with
      | some c => [c]
      | none =>
        match (pyTok2 dom).bind (fun p => dictLookup m p) with
        | some c => [c]
        | none => ["overige"]

/-- A key is safe when computing its first token cannot raise: either it has
no space, or splitting it on whitespace yields at least one token. -/
def wsSafe (s : String) : Bool := !(pyContains s ' ') || !(pySplitWs s).isEmpty

/-- `wsSafe` lifted to an optional key. -/
def optSafe : Option String → Bool
  | none => true
  | some s => wsSafe s

/-- All keys and all categories of a mapping are non-empty strings
(true of the static `POLICY_DOMAIN_MAPPING`). -/
def mapOk (m : List (String × String)) : Bool :=
  m.all (fun p => (p.1 != "") && (p.2 != ""))

/-- Python `str.strip()`: drop leading and trailing whitespace. -/
def pyStrip (s : String) : String :=
  ⟨((s.data.dropWhile Char.isWhitespace).reverse.dropWhile Char.isWhitespace).reverse⟩

/-- Replace every non-overlapping occurrence of `pat` (non-empty), scanning
left to right; the `Nat` argument is fuel bounding the scan length. -/
def pyReplaceAux (pat rep : List Char) : List Char → Nat → List Char
  | cs, 0 => cs
  | cs, Nat.succ fuel =>
    match cs with
    | [] => []
    | c :: rest =>
      if pat.isPrefixOf cs then rep ++ pyReplaceAux pat rep (cs.drop pat.length) fuel
      else c :: pyReplaceAux pat rep rest fuel

/-- Python `s.replace(pat, rep)` for a non-empty pattern. -/
def pyReplace (s pat rep : String) : String :=
  ⟨pyReplaceAux pat.data rep.data s.data s.data.length⟩

/-- Three-way code-point comparison of character lists (Python string
comparison is lexicographic on code points). -/
def cmpChars : List Char → List Char → Ordering
  | [], [] => Ordering.eq
  | [], _ :: _ => Ordering.lt
  | _ :: _, [] => Ordering.gt
  | a :: as, b :: bs =>
    if a.toNat < b.toNat then Ordering.lt
    else if b.toNat < a.toNat then Ordering.gt
    else cmpChars as bs

/-- Three-way comparison of Python strings. -/
def cmpStr (s t : String) : Ordering := cmpChars s.data t.data

/-- Three-way comparison of integers. -/
def cmpInt (a b : Int) : Ordering :=
  if a < b then Ordering.lt else if b < a then Ordering.gt else Ordering.eq

/-- Python comparison of a `(year, type, gender)` key tuple. -/
def cmpKey3 (a b : Int × String × String) : Ordering :=
  (cmpInt a.1 b.1).then ((cmpStr a.2.1 b.2.1).then (cmpStr a.2.2 b.2.2))

/-- `a ≤ b` for key tuples, as Python `sorted` orders them. -/
def keyLeb (a b : Int × String × String) : Bool := !(cmpKey3 a b == Ordering.gt)

theorem char_toNat_inj (a b : Char) (h : a.toNat = b.toNat) : a = b := by
  cases a; cases b
  simp only [Char.toNat] at h
  congr 1
  exact UInt32.ext h

theorem cmpChars_eq_of : ∀ x y, cmpChars x y = Ordering.eq → x = y := by
  intro x
  induction x with
  | nil => intro y h; cases y <;> simp [cmpChars] at h ⊢
  | cons a as ih =>
    intro y h
    cases y with
    | nil => simp [cmpChars] at h
    | cons b bs =>
      unfold cmpChars at h
      rcases Nat.lt_trichotomy a.toNat b.toNat with hc | hc | hc
      · rw [if_pos hc] at h; exact absurd h (by simp)
      · rw [if_neg (by omega), if_neg (by omega)] at h
        rw [char_toNat_inj a b hc, ih bs h]
      · rw [if_neg (by omega), if_pos hc] at h; exact absurd h (by simp)

theorem cmpChars_swap : ∀ x y, cmpChars y x = (cmpChars x y).swap := by
  intro x
  induction x with
  | nil => intro y; cases y <;> rfl
  | cons a as ih =>
    intro y
    cases y with
    | nil => rfl
    | cons b bs =>
      show (if b.toNat < a.toNat then Ordering.lt
            else if a.toNat < b.toNat then Ordering.gt else cmpChars bs as) =
           (if a.toNat < b.toNat then Ordering.lt
            else if b.toNat < a.toNat then Ordering.gt else cmpChars as bs).swap
      rcases Nat.lt_trichotomy a.toNat b.toNat with hc | hc | hc
      · rw [if_neg (by omega), if_pos hc, if_pos hc]; rfl
      · rw [if_neg (by omega), if_neg (by omega), if_neg (by omega), if_neg (by omega)]
        exact ih bs
      · rw [if_pos hc, if_neg (by omega), if_pos hc]; rfl

theorem then_lt_left (p : Ordering) : (Ordering.lt).then p = Ordering.lt := rfl

theorem then_gt_left (p : Ordering) : (Ordering.gt).then p = Ordering.gt := rfl

theorem then_eq_left (p : Ordering) : (Ordering.eq).then p = p := rfl

theorem cmpChars_lt_trans :
    ∀ x y z, cmpChars x y = Ordering.lt → cmpChars y z = Ordering.lt →
      cmpChars x z = Ordering.lt := by
  intro x
  induction x with
  | nil =>
    intro y z h1 h2
    cases y with
    | nil => simp [cmpChars] at h1
    | cons b bs => cases z with
      | nil => simp [cmpChars] at h2
      | cons c cs => simp [cmpChars]
  | cons a as ih =>
    intro y z h1 h2
    cases y with
    | nil => simp [cmpChars] at h1
    | cons b bs =>
      cases z with
      | nil => simp [cmpChars] at h2
      | cons c cs =>
        unfold cmpChars at h1 h2 ⊢
        split_ifs at h1 h2 ⊢ <;>
          first
          | rfl
          | omega
          | (exact ih bs cs h1 h2)

theorem cmpStr_eq_of (s t : String) (h : cmpStr s t = Ordering.eq) : s = t := by
  cases s; cases t
  exact congrArg String.mk (cmpChars_eq_of _ _ h)

theorem cmpInt_eq_of (a b : Int) (h : cmpInt a b = Ordering.eq) : a = b := by
  unfold cmpInt at h
  rcases Int.lt_trichotomy a b with hc | hc | hc
  · rw [if_pos hc] at h; exact absurd h (by simp)
  · exact hc
  · rw [if_neg (by omega), if_pos hc] at h; exact absurd h (by simp)

theorem cmpInt_swap (a b : Int) : cmpInt b a = (cmpInt a b).swap := by
  unfold cmpInt
  rcases Int.lt_trichotomy a b with hc | hc | hc
  · rw [if_neg (by omega), if_pos hc, if_pos hc]; rfl
  · rw [if_neg (by omega), if_neg (by omega), if_neg (by omega), if_neg (by omega)]; rfl
  · rw [if_pos hc, if_neg (by omega), if_pos hc]; rfl

theorem cmpInt_lt_trans (a b c : Int) (h1 : cmpInt a b = Ordering.lt)
    (h2 : cmpInt b c = Ordering.lt) : cmpInt a c = Ordering.lt := by
  unfold cmpInt at h1 h2 ⊢
  split_ifs at h1 h2 ⊢ <;> first | rfl | omega

theorem ordering_then_swap (o p : Ordering) : (o.then p).swap = o.swap.then p.swap := by
  cases o <;> cases p <;> rfl

theorem cmpKey3_eq_of (a b : Int × String × String) (h : cmpKey3 a b = Ordering.eq) :
    a = b := by
  unfold cmpKey3 at h
  rcases ho : cmpInt a.1 b.1 <;> rw [ho] at h
  · rw [then_lt_left] at h; exact absurd h (by decide)
  · rw [then_eq_left] at h
    rcases hs : cmpStr a.2.1 b.2.1 <;> rw [hs] at h
    · rw [then_lt_left] at h; exact absurd h (by decide)
    · rw [then_eq_left] at h
      exact Prod.ext (cmpInt_eq_of _ _ ho) (Prod.ext (cmpStr_eq_of _ _ hs) (cmpStr_eq_of _ _ h))
    · rw [then_gt_left] at h; exact absurd h (by decide)
  · rw [then_gt_left] at h; exact absurd h (by decide)

theorem cmpKey3_swap (a b : Int × String × String) : cmpKey3 b a = (cmpKey3 a b).swap := by
  unfold cmpKey3
  rw [ordering_then_swap, ordering_then_swap]
  rw [show cmpInt b.1 a.1 = (cmpInt a.1 b.1).swap from cmpInt_swap _ _]
  rw [show cmpStr b.2.1 a.2.1 = (cmpStr a.2.1 b.2.1).swap from cmpChars_swap _ _]
  rw [show cmpStr b.2.2 a.2.2 = (cmpStr a.2.2 b.2.2).swap from cmpChars_swap _ _]

theorem cmpKey3_lt_trans (a b c : Int × String × String) (h1 : cmpKey3 a b = Ordering.lt)
    (h2 : cmpKey3 b c = Ordering.lt) : cmpKey3 a c = Ordering.lt := by
  unfold cmpKey3 at h1 h2 ⊢
  rcases ho1 : cmpInt a.1 b.1 <;> rw [ho1] at h1
  · rcases ho2 : cmpInt b.1 c.1 <;> rw [ho2] at h2
    · rw [cmpInt_lt_trans _ _ _ ho1 ho2, then_lt_left]
    · have e := cmpInt_eq_of _ _ ho2
      rw [← e, ho1, then_lt_left]
    · rw [then_gt_left] at h2; exact absurd h2 (by decide)
  · rw [then_eq_left] at h1
    have e1 := cmpInt_eq_of _ _ ho1
    rcases ho2 : cmpInt b.1 c.1 <;> rw [ho2] at h2
    · rw [e1, ho2, then_lt_left]
    · rw [then_eq_left] at h2
      rw [e1, ho2, then_eq_left]
      rcases hs1 : cmpStr a.2.1 b.2.1 <;> rw [hs1] at h1
      · rcases hs2 : cmpStr b.2.1 c.2.1 <;> rw [hs2] at h2
        · rw [show cmpStr a.2.1 c.2.1 = Ordering.lt from cmpChars_lt_trans _ _ _ hs1 hs2,
            then_lt_left]
        · have e2 := cmpStr_eq_of _ _ hs2
          rw [← e2, hs1, then_lt_left]
        · rw [then_gt_left] at h2; exact absurd h2 (by decide)
      · rw [then_eq_left] at h1
        have e2 := cmpStr_eq_of _ _ hs1
        rcases hs2 : cmpStr b.2.1 c.2.1 <;> rw [hs2] at h2
        · rw [e2, hs2, then_lt_left]
        · rw [then_eq_left] at h2
          rw [e2, hs2, then_eq_left]
          exact cmpChars_lt_trans _ _ _ h1 h2
        · rw [then_gt_left] at h2; exact absurd h2 (by decide)
      · rw [then_gt_left] at h1; exact absurd h1 (by decide)
    · rw [then_gt_left] at h2; exact absurd h2 (by decide)
  · rw [then_gt_left] at h1; exact absurd h1 (by decide)

theorem keyLeb_total (a b : Int × String × String) :
    keyLeb a b = true ∨ keyLeb b a = true := by
  unfold keyLeb
  rcases h : cmpKey3 a b
  · left; rfl
  · left; rfl
  · right
    rw [cmpKey3_swap, h]
    rfl

theorem keyLeb_trans (a b c : Int × String × String) (h1 : keyLeb a b = true)
    (h2 : keyLeb b c = true) : keyLeb a c = true := by
  unfold keyLeb at h1 h2 ⊢
  rcases hab : cmpKey3 a b <;> rw [hab] at h1
  · rcases hbc : cmpKey3 b c <;> rw [hbc] at h2
    · rw [cmpKey3_lt_trans _ _ _ hab hbc]; rfl
    · have e := cmpKey3_eq_of _ _ hbc
      rw [← e, hab]; rfl
    · exact absurd h2 (by decide)
  · have e := cmpKey3_eq_of _ _ hab
    rw [e]; exact h2
  · exact absurd h1 (by decide)

/-- The sort relation of Python `sorted(..., key=(year, type, gender))`. -/
def keyLe (a b : Int × String × String) : Prop := keyLeb a b = true

instance : DecidableRel keyLe := fun a b => instDecidableEqBool (keyLeb a b) true

instance : IsTotal (Int × String × String) keyLe := ⟨keyLeb_total⟩

instance : IsTrans (Int × String × String) keyLe := ⟨keyLeb_trans⟩

/-- A Python cell value: missing (None/NaN), numeric, or textual. -/
inductive PyVal where
  | vNone : PyVal
  | vNum : ℚ → PyVal
  | vStr : String → PyVal
deriving DecidableEq

/-- Python `s.split(sep)` keeping empty pieces, on character lists. -/
def splitOnChar (sep : Char) : List Char → List (List Char)
  | [] => [[]]
  | x :: xs =>
    let r := splitOnChar sep xs
    if x == sep then [] :: r
    else (x :: r.headD []) :: r.tail

/-- All characters are ASCII digits. -/
def allDigits (cs : List Char) : Bool := cs.all (fun c => c.isDigit)

/-- The natural number denoted by a digit string. -/
def digitsToNat (cs : List Char) : Nat := cs.foldl (fun a c => 10 * a + (c.toNat - 48)) 0

/-- Negate when the sign was `-`. -/
def pyNegIf (neg : Bool) (q : ℚ) : ℚ := if neg then -q else q

/-- Python `float(s)` on plain decimal literals: optional sign, digits with at
most one decimal point, surrounding whitespace stripped; `none` models the
`ValueError` on anything else.  (Exponents, `inf`/`nan` and underscores do not
occur in this repository's data paths and are not modelled: such strings are
mapped to `none`.) -/
def pyFloat (s : String) : Option ℚ :=
  let cs := (pyStrip s).data
  let signed : Bool × List Char :=
    match cs with
    | '-' :: rest => (true, rest)
    | '+' :: rest => (false, rest)
    | _ => (false, cs)
  match splitOnChar '.' signed.2 with
  | [a] =>
    if !a.isEmpty && allDigits a then some (pyNegIf signed.1 (digitsToNat a : ℚ))
    else none
  | [a, b] =>
    if (allDigits a && allDigits b) && !(a.isEmpty && b.isEmpty) then
      some (pyNegIf signed.1 ((digitsToNat a : ℚ) + (digitsToNat b : ℚ) / (10 : ℚ) ^ b.length))
    else none
  | _ => none

/-- Python `int(x)` on a float: truncation toward zero. -/
def pyIntOf (q : ℚ) : Int := if q < 0 then ⌈q⌉ else ⌊q⌋

/-- Python `round(x)`: round half to even. -/
def roundHalfEven (x : ℚ) : Int :=
  let n : Int := ⌊x⌋
  if x - (n : ℚ) < 1/2 then n
  else if (1 : ℚ)/2 < x - (n : ℚ) then n + 1
  else if n % 2 = 0 then n else n + 1

/-- Python `round(x, 2)` (floats idealised as exact rationals). -/
def pyRound2 (x : ℚ) : ℚ := (roundHalfEven (x * 100) : ℚ) / 100

/-- `parse_dutch_number` of `process_project_details.py`: `0` for a missing
value, the value itself for a number, and for a string: strip, drop the dots
(thousands separators), turn commas into dots, then `float(...)`, with `0` on
a parse failure. -/
def parse_dutch_number (v : PyVal) : ℚ :=
  match v with
  | PyVal.vNone => 0
  | PyVal.vNum q => q
  | PyVal.vStr s => (pyFloat (pyReplace (pyReplace (pyStrip s) "." "") "," ".")).getD 0

/-- One extracted employment data point of `arbeiders-bedienden`
(`process_excel_file` emits one per valid province row and sheet); the
measure is optional so that null measures can be spoken about. -/
structure EmpRecord where
  year : Int
  rtype : String
  gender : String
  count : Option ℚ
deriving DecidableEq

/-- pandas' null-skipping sum over a measure column. -/
def optSum (l : List (Option ℚ)) : ℚ := (l.map (fun o => o.getD 0)).sum

/-- The `['year', 'type', 'gender']` grouping key. -/
def empKey (r : EmpRecord) : Int × String × String := (r.year, r.rtype, r.gender)

/-- `df.groupby(['year', 'type', 'gender'])['count'].sum()`: one entry per
distinct key, in sorted key order as pandas emits them, whose measure is the
full-precision null-skipping sum of the group's counts. -/
def empGroups (rs : List EmpRecord) : List ((Int × String × String) × ℚ) :=
  (List.insertionSort keyLe ((rs.map empKey).dedup)).map
    (fun k => (k, optSum ((rs.filter (fun r => decide (empKey r = k))).map EmpRecord.count)))

/-- One row of the exported employment time series (`int(row['count'])`). -/
structure EmpAggRow where
  year : Int
  rtype : String
  gender : String
  count : Int
deriving DecidableEq

/-- The key tuple of an output row. -/
def empRowKey (a : EmpAggRow) : Int × String × String := (a.year, a.rtype, a.gender)

/-- The order `sorted(time_series, key=lambda x: (x['year'], x['type'], x['gender']))`
sorts by. -/
def empRowLe (a b : EmpAggRow) : Prop := keyLe (empRowKey a) (empRowKey b)

instance : DecidableRel empRowLe :=
  fun a b => inferInstanceAs (Decidable (keyLe (empRowKey a) (empRowKey b)))

instance : IsTotal EmpAggRow empRowLe := ⟨fun a b => keyLeb_total _ _⟩

instance : IsTrans EmpAggRow empRowLe := ⟨fun a b c => keyLeb_trans _ _ _⟩

/-- `aggregate_time_series` of `arbeiders-bedienden/src/process_data.py`:
group by (year, type, gender), sum counts, cast each group sum with `int()`,
and sort ascending by the key tuple. -/
def aggregate_time_series (rs : List EmpRecord) : List EmpAggRow :=
  List.insertionSort empRowLe
    ((empGroups rs).map (fun kc =>
      { year := kc.1.1, rtype := kc.1.2.1, gender := kc.1.2.2, count := pyIntOf kc.2 }))

/-- One row of the EPC label CSV (`epc_labelverdeling.csv`). -/
structure EpcRecord where
  jaar : Int
  bestemming : String
  energielabel : String
  aantal : Int
deriving DecidableEq

/-- The `residential` building-type list of `process_epc_data.py`. -/
def residential : List String := ["Appartement", "Collectief woongebouw", "Eengezinswoning"]

/-- One entry of `residential_aa_by_year_building`. -/
structure EpcEntry where
  year : Int
  building_type : String
  share : ℚ
  label_a_plus_a : Int
  total : Int
deriving DecidableEq

/-- `a ≤ b` on integers, as a named sort relation. -/
def intLe (a b : Int) : Prop := a ≤ b

instance : DecidableRel intLe := fun a b => Int.decLe a b

/-- `sorted(years, reverse=True)` over the distinct years. -/
def sortDescInt (l : List Int) : List Int := (List.insertionSort intLe l).reverse

/-- `residential_aa_by_year_building` of `process_epc_data.py`: for each year
in descending order and each residential building type with data, the A+/A
share (0 when the total is 0), rounded to 2 decimals, with the counts. -/
def residential_aa_by_year_building (df : List EpcRecord) : List EpcEntry :=
  let residential_data := df.filter (fun r => residential.contains r.bestemming)
  (sortDescInt ((df.map EpcRecord.jaar).dedup)).flatMap (fun year =>
    residential.filterMap (fun bt =>
      let building_data := residential_data.filter
        (fun r => decide (r.jaar = year) && decide (r.bestemming = bt))
      if building_data.isEmpty then none
      else
        let aa := ((building_data.filter
          (fun r => (r.energielabel == "A+") || (r.energielabel == "A"))).map EpcRecord.aantal).sum
        let tot := (building_data.map EpcRecord.aantal).sum
        let share : ℚ := if (0 : Int) < tot then (aa : ℚ) / (tot : ℚ) * 100 else 0
        some { year := year, building_type := bt, share := pyRound2 share,
               label_a_plus_a := aa, total := tot }))

theorem sum_indicator_single {κ : Type} [DecidableEq κ] (c : ℚ) :
    ∀ (ks : List κ) (a : κ), ks.Nodup → a ∈ ks →
      (ks.map (fun k => if a = k then c else 0)).sum = c := by
  intro ks
  induction ks with
  | nil => intro a _ h; cases h
  | cons k ks ih =>
    intro a hnd hmem
    simp only [List.map_cons, List.sum_cons]
    rcases List.mem_cons.mp hmem with rfl | hmem2
    · rw [if_pos rfl]
      have hz : ((ks.map (fun k2 => if a = k2 then c else 0)).sum) = 0 := by
        apply List.sum_eq_zero
        intro x hx
        rcases List.mem_map.mp hx with ⟨k2, hk2, rfl⟩
        refine if_neg (fun e => (List.nodup_cons.mp hnd).1 ?_)
        rw [e]; exact hk2
      rw [hz, add_zero]
    · have hne : ¬ (a = k) := fun e => (List.nodup_cons.mp hnd).1 (by rw [← e]; exact hmem2)
      rw [if_neg hne, zero_add]
      exact ih a (List.nodup_cons.mp hnd).2 hmem2

/-- Splitting a list sum over the fibers of a key function: if `ks` lists
every occurring key exactly once, the per-fiber sums add up to the total. -/
theorem sum_fibers {α κ : Type} [DecidableEq κ] (key : α → κ) (f : α → ℚ) :
    ∀ (rs : List α) (ks : List κ), ks.Nodup → (∀ r ∈ rs, key r ∈ ks) →
      (ks.map (fun k => ((rs.filter (fun r => decide (key r = k))).map f).sum)).sum
        = (rs.map f).sum := by
  intro rs
  induction rs with
  | nil => intro ks _ _; simp
  | cons r rs ih =>
    intro ks hnd hcov
    have h1 : ks.map (fun k => (((r :: rs).filter (fun x => decide (key x = k))).map f).sum)
        = ks.map (fun k => (if key r = k then f r else 0)
            + ((rs.filter (fun x => decide (key x = k))).map f).sum) := by
      apply List.map_congr_left
      intro k _
      by_cases h : key r = k
      · simp [List.filter_cons, h]
      · simp [List.filter_cons, h]
    rw [h1, List.sum_map_add,
      sum_indicator_single (f r) ks (key r) hnd (hcov r (List.mem_cons_self r rs)),
      ih ks hnd (fun x hx => hcov x (List.mem_cons_of_mem r hx))]
    simp

/-- Conservation of mass at the grouping step: the per-group full-precision
sums add up to the null-skipping sum of all input measures. -/
theorem empGroups_conserves (rs : List EmpRecord) :
    ((empGroups rs).map Prod.snd).sum = optSum (rs.map EmpRecord.count) := by
  have key_mem : ∀ r ∈ rs, empKey r ∈ (rs.map empKey).dedup :=
    fun r hr => List.mem_dedup.mpr (List.mem_map_of_mem empKey hr)
  have base := sum_fibers empKey (fun r => (EmpRecord.count r).getD 0) rs
      ((rs.map empKey).dedup) (List.nodup_dedup _) key_mem
  calc ((empGroups rs).map Prod.snd).sum
      = ((List.insertionSort keyLe ((rs.map empKey).dedup)).map
          (fun k => optSum ((rs.filter (fun r => decide (empKey r = k))).map
            EmpRecord.count))).sum := by
        unfold empGroups
        rw [List.map_map]
        rfl
    _ = (((rs.map empKey).dedup).map
          (fun k => optSum ((rs.filter (fun r => decide (empKey r = k))).map
            EmpRecord.count))).sum :=
        List.Perm.sum_eq ((List.perm_insertionSort keyLe _).map _)
    _ = optSum (rs.map EmpRecord.count) := by
        unfold optSum
        simp only [List.map_map]
        exact base

/-- Rows of `aggregate_time_series` output carry the `int()`-cast
null-skipping sum of their key's fiber. -/
theorem aggregate_time_series_count (rs : List EmpRecord) (row : EmpAggRow)
    (h : row ∈ aggregate_time_series rs) :
    row.count = pyIntOf (optSum ((rs.filter
      (fun r => decide (empKey r = empRowKey row))).map EmpRecord.count)) := by
  unfold aggregate_time_series at h
  have h2 := (List.perm_insertionSort empRowLe _).mem_iff.mp h
  rcases List.mem_map.mp h2 with ⟨kc, hkc, rfl⟩
  unfold empGroups at hkc
  rcases List.mem_map.mp hkc with ⟨k, _, rfl⟩
  rfl

/-- The exported employment time series is sorted ascending by the
`(year, type, gender)` tuple. -/
theorem aggregate_time_series_sorted (rs : List EmpRecord) :
    List.Sorted empRowLe (aggregate_time_series rs) :=
  List.sorted_insertionSort empRowLe _

/-- `PROVINCE_NAMES` of `arbeiders-bedienden/src/process_data.py`. -/
def PROVINCE_NAMES : List String :=
  ["Antwerpen", "Brussels Hoofdst. Gew.", "Henegouwen", "Limburg", "Luik", "Luxemburg",
   "Namen", "Oost-Vlaanderen", "Vlaams-Brabant", "Waals-Brabant", "West-Vlaanderen"]

/-- One scanned sheet row of `process_excel_file`: column A (the province
cell) and column U (the construction-sector measure); column B is read but
never used and is not modelled. -/
structure ExcelRow where
  colA : PyVal
  colU : PyVal
deriving DecidableEq

/-- The province filter: skip when the cell is missing or blank, else strip
and require membership in `PROVINCE_NAMES`.  (A numeric cell's `str()` image
is never a province name, so it is likewise skipped.) -/
def provinceOf : PyVal → Option String
  | PyVal.vNone => none
  | PyVal.vNum _ => none
  | PyVal.vStr s =>
    let t := pyStrip s
    if t == "" then none
    else if PROVINCE_NAMES.contains t then some t else none

/-- The body of the row-scan loop of `process_excel_file`: skip non-province
rows, then `float(value)` under the `notna and != ''` guard, skipping the row
on a conversion error.  (`int(value) if value == int(value) else value` only
changes the JSON type, not the numeric value, and the count is kept as the
parsed rational.) -/
def rowRecord (year : Int) (rtype gender : String) (r : ExcelRow) : Option EmpRecord :=
  match provinceOf r.colA with
  | none => none
  | some _ =>
    match r.colU with
    | PyVal.vNone => none
    | PyVal.vNum q => some ⟨year, rtype, gender, some q⟩
    | PyVal.vStr s =>
      if s == "" then none
      else
        match pyFloat s with
        | none => none
        | some q => some ⟨year, rtype, gender, some q⟩

/-- The row scan of one sheet. -/
def processSheetRows (year : Int) (rtype gender : String) : List ExcelRow → List EmpRecord
  | [] => []
  | r :: rest =>
    match rowRecord year rtype gender r with
    | none => processSheetRows year rtype gender rest
    | some x => x :: processSheetRows year rtype gender rest

/-- One sheet of `process_excel_file`: data rows start at index 7 (the first
seven rows are headers). -/
def processSheet (year : Int) (rtype gender : String) (df : List ExcelRow) : List EmpRecord :=
  processSheetRows year rtype gender (df.drop 7)

/-- `process_excel_file`: the four sheets of the `SHEETS` mapping in
insertion order (tabel8..tabel11). -/
def process_excel_file (year : Int) (tabel8 tabel9 tabel10 tabel11 : List ExcelRow) :
    List EmpRecord :=
  processSheet year "arbeiders" "mannen" tabel8
    ++ processSheet year "arbeiders" "vrouwen" tabel9
    ++ processSheet year "bedienden" "mannen" tabel10
    ++ processSheet year "bedienden" "vrouwen" tabel11

/-- A cell holding non-empty text that `float()` rejects. -/
def unparseableCell : PyVal → Bool
  | PyVal.vStr s => (pyFloat s).isNone && !(s == "")
  | _ => false

theorem rowRecord_unparseable (year : Int) (rtype gender : String) (r : ExcelRow)
    (h : unparseableCell r.colU = true) : rowRecord year rtype gender r = none := by
  unfold rowRecord
  rcases hA : provinceOf r.colA with _ | p
  · rfl
  · rcases hU : r.colU with _ | q | s
    · rfl
    · rw [hU] at h; simp [unparseableCell] at h
    · rw [hU] at h
      simp only [unparseableCell, Bool.and_eq_true, Option.isNone_iff_eq_none] at h
      have h2 : (s == "") = false := by
        rcases h with ⟨_, h2⟩
        simpa using h2
      simp [h.1, h2]

theorem processSheetRows_skip (year : Int) (rtype gender : String)
    (xs ys : List ExcelRow) (bad : ExcelRow) (h : unparseableCell bad.colU = true) :
    processSheetRows year rtype gender (xs ++ bad :: ys)
      = processSheetRows year rtype gender (xs ++ ys) := by
  induction xs with
  | nil =>
    simp only [List.nil_append, processSheetRows,
      rowRecord_unparseable year rtype gender bad h]
  | cons x xs ih =>
    simp only [List.cons_append, processSheetRows, List.append_eq, ih]

/-- One row of `data-54.csv` as `process_projects` reads it.  The
action-block fields hold the result of `extract_code_description` on the
'Actie totaaloverzicht' text (`none` = key absent); the regex extraction
itself is not relied on by any claim and is not modelled further. -/
structure ProjRow where
  nis : Option Int
  beleidsdomein : String
  beleidssubdomein : String
  acCode : Option String
  acShort : Option String
  acLong : Option String
  uitgave : PyVal
  boekjaar : Int
deriving DecidableEq

/-- One aggregated project record of `process_projects`. -/
structure Project where
  municipality : String
  nis_code : String
  ac_code : String
  ac_short : String
  ac_long : String
  beleidsdomein : String
  beleidssubdomein : String
  categories : List String
  total_amount : ℚ
  yearly_amounts : List (String × ℚ)
deriving DecidableEq

/-- `projects_map[key]`, the insertion-ordered dict as an association list. -/
def lookupAssoc (m : List (String × Project)) (k : String) : Option Project :=
  (m.find? (fun kp => kp.1 == k)).map (fun kp => kp.2)

/-- `yearly_amounts[year] = yearly_amounts.get(year, 0) + amount`. -/
def bumpYear : List (String × ℚ) → String → ℚ → List (String × ℚ)
  | [], y, a => [(y, a)]
  | kv :: rest, y, a =>
    if kv.1 == y then (kv.1, kv.2 + a) :: rest else kv :: bumpYear rest y a

/-- Accumulate one amount into a project. -/
def addAmount (p : Project) (year : String) (amt : ℚ) : Project :=
  { p with total_amount := p.total_amount + amt,
           yearly_amounts := bumpYear p.yearly_amounts year amt }

/-- Update the entry with key `k` in place (dict keys are unique). -/
def bumpAssoc : List (String × Project) → String → String → ℚ → List (String × Project)
  | [], _, _, _ => []
  | kp :: rest, k, y, a =>
    if kp.1 == k then (kp.1, addAmount kp.2 y a) :: rest
    else kp :: bumpAssoc rest k y a

/-- The freshly initialised project dict (total 0, no yearly amounts). -/
def mkProject (municipality nis_code ac_code ac_short ac_long bd bsd : String)
    (categories : List String) : Project :=
  ⟨municipality, nis_code, ac_code, ac_short, ac_long, bd, bsd, categories, 0, []⟩

/-- The body of the row loop of `process_projects`, in the source's guard
order: missing NIS, unknown/empty municipality, empty policy domain, missing
action code/short text, non-positive amount each skip the row; then the row
is classified and accumulated under `municipality|ac_code`.  `nm` is the
`nis_to_name` lookup; `none` propagates the (unreachable on stripped input)
classifier `IndexError`. -/
def step (nm : List (String × String)) (acc : List (String × Project)) (r : ProjRow) :
    Option (List (String × Project)) :=
  match r.nis with
  | none => some acc
  | some n =>
    let nis_code := toString n
    match dictLookup nm nis_code with
    | none => some acc
    | some name =>
      if name == "" then some acc
      else
        let beleidsdomein := pyStrip r.beleidsdomein
        let beleidssubdomein := pyStrip r.beleidssubdomein
        if beleidsdomein == "" then some acc
        else if !(pyTruthy r.acCode && pyTruthy r.acShort) then some acc
        else
          let amount := parse_dutch_number r.uitgave
          if amount ≤ 0 then some acc
          else
            let fiscal_year := toString r.boekjaar
            let ac_code := r.acCode.getD ""
            let project_key := name ++ "|" ++ ac_code
            match classify_project_by_policy_domain POLICY_DOMAIN_MAPPING
                (some beleidsdomein) (some beleidssubdomein) with
            | none => none
            | some categories =>
              let acc2 :=
                if (lookupAssoc acc project_key).isSome then acc
                else acc ++ [(project_key,
                  mkProject name nis_code ac_code (r.acShort.getD "") (r.acLong.getD "")
                    beleidsdomein beleidssubdomein categories)]
              some (bumpAssoc acc2 project_key fiscal_year amount)

/-- The row loop of `process_projects`. -/
def processRows (nm : List (String × String)) :
    List ProjRow → List (String × Project) → Option (List (String × Project))
  | [], acc => some acc
  | r :: rest, acc =>
    match step nm acc r with
    | none => none
    | some acc2 => processRows nm rest acc2

/-- The per-project rounding applied before returning
(`round(total_amount, 2)` and per-year rounding). -/
def finalizeProject (p : Project) : Project :=
  { p with total_amount := pyRound2 p.total_amount,
           yearly_amounts := p.yearly_amounts.map (fun kv => (kv.1, pyRound2 kv.2)) }

/-- `process_projects` of `process_project_details.py`: scan the rows into
the insertion-ordered project dict, then round and list the values. -/
def process_projects (nm : List (String × String)) (rows : List ProjRow) :
    Option (List Project) :=
  (processRows nm rows []).map (fun m => m.map (fun kp => finalizeProject kp.2))

/-- The parsed amount of a row. -/
def rowAmount (r : ProjRow) : ℚ := parse_dutch_number r.uitgave

/-- The municipality name a row resolves to, when its NIS code is present,
known, and maps to a non-empty name. -/
def rowMunicipality (nm : List (String × String)) (r : ProjRow) : Option String :=
  match r.nis with
  | none => none
  | some n =>
    match dictLookup nm (toString n) with
    | none => none
    | some name => if name == "" then none else some name

/-- Whether `process_projects` keeps (accumulates) a row. -/
def rowKept (nm : List (String × String)) (r : ProjRow) : Bool :=
  (rowMunicipality nm r).isSome
    && !(pyStrip r.beleidsdomein == "")
    && (pyTruthy r.acCode && pyTruthy r.acShort)
    && !(decide (rowAmount r ≤ 0))

/-- The `municipality|ac_code` grouping key of a (kept) row. -/
def rowKey (nm : List (String × String)) (r : ProjRow) : String :=
  (rowMunicipality nm r).getD "" ++ "|" ++ r.acCode.getD ""

theorem step_skip (nm : List (String × String)) (acc : List (String × Project))
    (r : ProjRow) (h : rowKept nm r = false) : step nm acc r = some acc := by
  unfold rowKept rowMunicipality rowAmount at h
  unfold step
  rcases hn : r.nis with _ | n
  · rfl
  · rw [hn] at h
    simp only [] at h ⊢
    rcases hm : dictLookup nm (toString n) with _ | name
    · rfl
    · rw [hm] at h
      simp only [] at h ⊢
      by_cases he : name = ""
      · rw [if_pos (by simpa using he)]
      · rw [if_neg (by simpa using he)]
        rw [if_neg (by simpa using he)] at h
        simp only [Option.isSome_some, Bool.true_and] at h
        by_cases hd : pyStrip r.beleidsdomein = ""
        · rw [if_pos (by simpa using hd)]
        · rw [if_neg (by simpa using hd)]
          rw [(by simpa using hd : (pyStrip r.beleidsdomein == "") = false)] at h
          simp only [Bool.not_false, Bool.true_and] at h
          rcases Bool.eq_false_or_eq_true (pyTruthy r.acCode && pyTruthy r.acShort)
            with hac | hac
          · rw [if_neg (by simp [hac])]
            rw [hac, Bool.true_and] at h
            have hle : parse_dutch_number r.uitgave ≤ 0 := by simpa using h
            rw [if_pos hle]
          · rw [if_pos (by simp [hac])]

theorem step_kept (nm : List (String × String)) (acc : List (String × Project))
    (r : ProjRow) (h : rowKept nm r = true) :
    step nm acc r =
      match classify_project_by_policy_domain POLICY_DOMAIN_MAPPING
          (some (pyStrip r.beleidsdomein)) (some (pyStrip r.beleidssubdomein)) with
      | none => none
      | some categories =>
        some (bumpAssoc
          (if (lookupAssoc acc (rowKey nm r)).isSome then acc
           else acc ++ [(rowKey nm r,
             mkProject ((rowMunicipality nm r).getD "") (toString (r.nis.getD 0))
               (r.acCode.getD "") (r.acShort.getD "") (r.acLong.getD "")
               (pyStrip r.beleidsdomein) (pyStrip r.beleidssubdomein) categories)])
          (rowKey nm r) (toString r.boekjaar) (rowAmount r)) := by
  simp only [rowKept, Bool.and_eq_true] at h
  obtain ⟨⟨⟨h1, h2⟩, h3⟩, h4⟩ := h
  obtain ⟨name, hm⟩ := Option.isSome_iff_exists.mp h1
  have hm2 := hm
  unfold rowMunicipality at hm2
  unfold step
  rcases hn : r.nis with _ | n
  · rw [hn] at hm2; exact absurd hm2 (by simp)
  · rw [hn] at hm2
    simp only [] at hm2 ⊢
    rcases hdl : dictLookup nm (toString n) with _ | name2
    · rw [hdl] at hm2; exact absurd hm2 (by simp)
    · rw [hdl] at hm2
      simp only [] at hm2 ⊢
      by_cases hne : (name2 == "") = true
      · rw [if_pos hne] at hm2; exact absurd hm2 (by simp)
      · rw [if_neg hne] at hm2
        rw [if_neg hne]
        have hbd : (pyStrip r.beleidsdomein == "") = false := by
          simpa using h2
        rw [if_neg (by simp [hbd])]
        rw [if_neg (by simp [h3])]
        have ham : ¬ (parse_dutch_number r.uitgave ≤ 0) := by
          simpa [rowAmount] using h4
        rw [if_neg ham]
        have hkey : rowKey nm r = name2 ++ "|" ++ r.acCode.getD "" := by
          unfold rowKey
          rw [hm]
          have : name = name2 := by
            have := hm2
            simp at this
            exact this.symm
          rw [this]
          rfl
        have hmun : (rowMunicipality nm r).getD "" = name2 := by
          rw [hm]
          have : name = name2 := by
            have := hm2
            simp at this
            exact this.symm
          rw [this]
          rfl
        rw [hkey, hmun]
        rfl

/-- The running total a key holds in the project dict (0 when absent). -/
def assocRaw (m : List (String × Project)) (k : String) : ℚ :=
  match lookupAssoc m k with
  | some p => p.total_amount
  | none => 0

/-- The sum of all running totals in the project dict. -/
def sumRaw (m : List (String × Project)) : ℚ :=
  (m.map (fun kp => kp.2.total_amount)).sum

/-- The sum of parsed amounts over the rows `process_projects` keeps. -/
def keptSum (nm : List (String × String)) (rows : List ProjRow) : ℚ :=
  ((rows.filter (rowKept nm)).map rowAmount).sum

/-- The sum of parsed amounts over the kept rows with grouping key `k`. -/
def fiberSum (nm : List (String × String)) (rows : List ProjRow) (k : String) : ℚ :=
  ((rows.filter (fun r => rowKept nm r && (rowKey nm r == k))).map rowAmount).sum

theorem bumpAssoc_keys (k y : String) (a : ℚ) :
    ∀ m : List (String × Project), (bumpAssoc m k y a).map Prod.fst = m.map Prod.fst := by
  intro m
  induction m with
  | nil => rfl
  | cons kp rest ih =>
    unfold bumpAssoc
    rcases Bool.eq_false_or_eq_true (kp.1 == k) with hk | hk
    · rw [if_pos hk]; rfl
    · rw [if_neg (by simp [hk])]
      simp only [List.map_cons, ih]

theorem lookupAssoc_bump_self (k y : String) (a : ℚ) :
    ∀ (m : List (String × Project)) (p : Project), lookupAssoc m k = some p →
      lookupAssoc (bumpAssoc m k y a) k = some (addAmount p y a) := by
  intro m
  induction m with
  | nil => intro p h; simp [lookupAssoc] at h
  | cons kp rest ih =>
    intro p h
    unfold lookupAssoc at h
    unfold bumpAssoc
    rcases Bool.eq_false_or_eq_true (kp.1 == k) with hk | hk
    · rw [if_pos hk]
      simp only [List.find?_cons, hk, cond_true] at h
      simp only [Option.map_some'] at h
      simp only [Option.some.injEq] at h
      unfold lookupAssoc
      simp only [List.find?_cons, hk, cond_true, Option.map_some', Option.some.injEq]
      rw [h]
    · rw [if_neg (by simp [hk])]
      simp only [List.find?_cons, hk, cond_false] at h
      unfold lookupAssoc
      simp only [List.find?_cons, hk, cond_false]
      exact ih p h

theorem lookupAssoc_bump_ne (k k2 y : String) (a : ℚ) (hne : ¬ (k2 = k)) :
    ∀ m : List (String × Project), lookupAssoc (bumpAssoc m k y a) k2 = lookupAssoc m k2 := by
  intro m
  induction m with
  | nil => rfl
  | cons kp rest ih =>
    unfold bumpAssoc
    rcases Bool.eq_false_or_eq_true (kp.1 == k) with hk | hk
    · rw [if_pos hk]
      have hne2 : (kp.1 == k2) = false := by
        have he : kp.1 = k := by simpa using hk
        simp only [he, beq_eq_false_iff_ne, ne_eq]
        exact fun e => hne e.symm
      unfold lookupAssoc
      simp only [List.find?_cons, hne2, cond_false]
    · rw [if_neg (by simp [hk])]
      unfold lookupAssoc
      rcases Bool.eq_false_or_eq_true (kp.1 == k2) with h2 | h2
      · simp only [List.find?_cons, h2, cond_true]
      · simp only [List.find?_cons, h2, cond_false]
        exact ih

theorem sumRaw_bump (k y : String) (a : ℚ) :
    ∀ (m : List (String × Project)) (p : Project), lookupAssoc m k = some p →
      sumRaw (bumpAssoc m k y a) = sumRaw m + a := by
  intro m
  induction m with
  | nil => intro p h; simp [lookupAssoc] at h
  | cons kp rest ih =>
    intro p h
    unfold bumpAssoc
    rcases Bool.eq_false_or_eq_true (kp.1 == k) with hk | hk
    · rw [if_pos hk]
      unfold sumRaw
      simp only [List.map_cons, List.sum_cons]
      show (addAmount kp.2 y a).total_amount + _ = _
      unfold addAmount
      simp only []
      ring
    · rw [if_neg (by simp [hk])]
      unfold lookupAssoc at h
      simp only [List.find?_cons, hk, cond_false] at h
      unfold sumRaw
      simp only [List.map_cons, List.sum_cons]
      have hih := ih p h
      unfold sumRaw at hih
      rw [hih]
      ring

theorem sumRaw_append (m : List (String × Project)) (k : String) (p : Project) :
    sumRaw (m ++ [(k, p)]) = sumRaw m + p.total_amount := by
  unfold sumRaw
  simp

theorem lookupAssoc_append (m l : List (String × Project)) (k : String) :
    lookupAssoc (m ++ l) k =
      match lookupAssoc m k with
      | some p => some p
      | none => lookupAssoc l k := by
  induction m with
  | nil => simp [lookupAssoc]
  | cons kp rest ih =>
    unfold lookupAssoc
    rcases Bool.eq_false_or_eq_true (kp.1 == k) with hk | hk
    · simp only [List.cons_append, List.find?_cons, hk, cond_true, Option.map_some']
    · simp only [List.cons_append, List.find?_cons, hk, cond_false]
      exact ih

theorem lookupAssoc_not_mem (m : List (String × Project)) (k : String)
    (h : lookupAssoc m k = none) : k ∉ m.map Prod.fst := by
  induction m with
  | nil => simp
  | cons kq rest ih =>
    unfold lookupAssoc at h
    rcases Bool.eq_false_or_eq_true (kq.1 == k) with hq | hq
    · simp only [List.find?_cons, hq, cond_true] at h
      simp at h
    · simp only [List.find?_cons, hq, cond_false] at h
      simp only [List.map_cons, List.mem_cons]
      rintro (rfl | hmem)
      · simp at hq
      · exact (ih h) hmem

theorem lookupAssoc_of_mem_nodup (m : List (String × Project)) (kp : String × Project)
    (hnd : (m.map Prod.fst).Nodup) (hmem : kp ∈ m) : lookupAssoc m kp.1 = some kp.2 := by
  induction m with
  | nil => cases hmem
  | cons kq rest ih =>
    rcases List.mem_cons.mp hmem with rfl | htail
    · unfold lookupAssoc
      simp [List.find?_cons]
    · unfold lookupAssoc
      have hne : (kq.1 == kp.1) = false := by
        have h1 : kq.1 ∉ rest.map Prod.fst := (List.nodup_cons.mp (by simpa using hnd)).1
        have h2 : kp.1 ∈ rest.map Prod.fst := List.mem_map.mpr ⟨kp, htail, rfl⟩
        simp only [beq_eq_false_iff_ne, ne_eq]
        exact fun e => h1 (e ▸ h2)
      simp only [List.find?_cons, hne, cond_false]
      exact ih ((List.nodup_cons.mp (by simpa using hnd)).2) htail

theorem addAmount_total (p : Project) (y : String) (a : ℚ) :
    (addAmount p y a).total_amount = p.total_amount + a := rfl

theorem keptSum_cons (nm : List (String × String)) (r : ProjRow) (rows : List ProjRow) :
    keptSum nm (r :: rows)
      = (if rowKept nm r = true then rowAmount r else 0) + keptSum nm rows := by
  unfold keptSum
  rcases Bool.eq_false_or_eq_true (rowKept nm r) with h | h
  · simp [List.filter_cons, h]
  · simp [List.filter_cons, h]

theorem fiberSum_cons (nm : List (String × String)) (r : ProjRow) (rows : List ProjRow)
    (k : String) :
    fiberSum nm (r :: rows) k
      = (if (rowKept nm r && (rowKey nm r == k)) = true then rowAmount r else 0)
        + fiberSum nm rows k := by
  unfold fiberSum
  rcases Bool.eq_false_or_eq_true (rowKept nm r && (rowKey nm r == k)) with h | h
  · simp [List.filter_cons, h]
  · simp [List.filter_cons, h]

theorem bumpAssoc_fields (k y : String) (a : ℚ) :
    ∀ m : List (String × Project),
      (∀ kp ∈ m, kp.1 = kp.2.municipality ++ "|" ++ kp.2.ac_code) →
      ∀ kp ∈ bumpAssoc m k y a, kp.1 = kp.2.municipality ++ "|" ++ kp.2.ac_code := by
  intro m
  induction m with
  | nil => intro _ kp hm; cases hm
  | cons kq rest ih =>
    intro h kp hm
    unfold bumpAssoc at hm
    rcases Bool.eq_false_or_eq_true (kq.1 == k) with hk | hk
    · rw [if_pos hk] at hm
      rcases List.mem_cons.mp hm with rfl | ht
      · have hq := h kq (List.mem_cons_self _ _)
        simpa [addAmount] using hq
      · exact h kp (List.mem_cons_of_mem _ ht)
    · rw [if_neg (by simp [hk])] at hm
      rcases List.mem_cons.mp hm with rfl | ht
      · exact h kp (List.mem_cons_self _ _)
      · exact ih (fun q hq => h q (List.mem_cons_of_mem _ hq)) kp ht

theorem nodup_concat_key (l : List String) (a : String) (h1 : l.Nodup) (h2 : a ∉ l) :
    (l ++ [a]).Nodup := by
  simp [List.nodup_append, h1]
  exact h2

/-- The fold invariant of `process_projects`' row loop: over any prefix of
processing, keys stay distinct and coherent with the project fields, the
total mass equals the accumulated mass plus the kept rows' amounts, and each
key's running total grows by exactly its fiber's amounts. -/
theorem processRows_spec (nm : List (String × String)) :
    ∀ (rows : List ProjRow) (acc m : List (String × Project)),
      processRows nm rows acc = some m →
      (((acc.map Prod.fst).Nodup → (m.map Prod.fst).Nodup)
        ∧ sumRaw m = sumRaw acc + keptSum nm rows
        ∧ (∀ k, assocRaw m k = assocRaw acc k + fiberSum nm rows k)
        ∧ ((∀ kp ∈ acc, kp.1 = kp.2.municipality ++ "|" ++ kp.2.ac_code) →
            ∀ kp ∈ m, kp.1 = kp.2.municipality ++ "|" ++ kp.2.ac_code)) := by
  intro rows
  induction rows with
  | nil =>
    intro acc m h
    unfold processRows at h
    simp only [Option.some.injEq] at h
    subst h
    refine ⟨fun hn => hn, by simp [keptSum], fun k => by simp [fiberSum], fun hf => hf⟩
  | cons r rows ih =>
    intro acc m h
    unfold processRows at h
    rcases hs : step nm acc r with _ | acc2
    · rw [hs] at h; simp at h
    · rw [hs] at h
      simp only [] at h
      rcases Bool.eq_false_or_eq_true (rowKept nm r) with hk | hk
      · -- the row is kept
        rw [step_kept nm acc r hk] at hs
        rcases hcl : classify_project_by_policy_domain POLICY_DOMAIN_MAPPING
            (some (pyStrip r.beleidsdomein)) (some (pyStrip r.beleidssubdomein)) with _ | cats
        · rw [hcl] at hs; simp at hs
        · rw [hcl] at hs
          simp only [Option.some.injEq] at hs
          obtain ⟨ih1, ih2, ih3, ih4⟩ := ih acc2 m h
          rcases hla : lookupAssoc acc (rowKey nm r) with _ | p
          · -- fresh key: append then accumulate
            rw [hla] at hs
            have hni : ¬ (((none : Option Project).isSome) = true) := by simp
            rw [if_neg hni] at hs
            set init := mkProject ((rowMunicipality nm r).getD "") (toString (r.nis.getD 0))
              (r.acCode.getD "") (r.acShort.getD "") (r.acLong.getD "")
              (pyStrip r.beleidsdomein) (pyStrip r.beleidssubdomein) cats with hinit
            have hla2 : lookupAssoc (acc ++ [(rowKey nm r, init)]) (rowKey nm r)
                = some init := by
              rw [lookupAssoc_append, hla]
              simp [lookupAssoc, List.find?_cons]
            refine ⟨?_, ?_, ?_, ?_⟩
            · intro hnd
              apply ih1
              rw [← hs, bumpAssoc_keys]
              simp only [List.map_append, List.map_cons, List.map_nil]
              exact nodup_concat_key _ _ hnd (lookupAssoc_not_mem acc _ hla)
            · rw [ih2, ← hs, sumRaw_bump _ _ _ _ init hla2, sumRaw_append,
                keptSum_cons, if_pos hk]
              have : init.total_amount = 0 := rfl
              rw [this]
              ring
            · intro k
              rw [ih3 k, fiberSum_cons]
              by_cases hkk : rowKey nm r = k
              · subst hkk
                rw [← hs]
                unfold assocRaw
                rw [lookupAssoc_bump_self _ _ _ _ init hla2, hla]
                simp only []
                rw [addAmount_total]
                have hz : init.total_amount = 0 := rfl
                have hc : (rowKept nm r && (rowKey nm r == rowKey nm r)) = true := by
                  rw [hk]; simp
                rw [hz, hc, if_pos rfl]
                ring
              · rw [← hs]
                unfold assocRaw
                rw [lookupAssoc_bump_ne _ _ _ _ (fun e => hkk e.symm), lookupAssoc_append]
                have hsing : lookupAssoc [(rowKey nm r, init)] k = none := by
                  unfold lookupAssoc
                  simp only [List.find?_cons,
                    (by simpa using hkk : (rowKey nm r == k) = false), cond_false]
                  simp [List.find?]
                have hcond : (rowKept nm r && (rowKey nm r == k)) = false := by
                  rw [(by simpa using hkk : (rowKey nm r == k) = false)]
                  simp
                rcases hlk : lookupAssoc acc k with _ | q <;> simp [hsing, hcond]
            · intro hf
              apply ih4
              rw [← hs]
              apply bumpAssoc_fields
              intro kp hkp
              rcases List.mem_append.mp hkp with hin | hone
              · exact hf kp hin
              · have : kp = (rowKey nm r, init) := by simpa using hone
                subst this
                rfl
          · -- existing key: accumulate in place
            rw [hla] at hs
            have hsi : (((some p : Option Project).isSome) = true) := by simp
            rw [if_pos hsi] at hs
            obtain ⟨jh1, jh2, jh3, jh4⟩ := ih acc2 m h
            refine ⟨?_, ?_, ?_, ?_⟩
            · intro hnd
              apply jh1
              rw [← hs, bumpAssoc_keys]
              exact hnd
            · rw [jh2, ← hs, sumRaw_bump _ _ _ _ p hla, keptSum_cons, if_pos hk]
              ring
            · intro k
              rw [jh3 k, fiberSum_cons]
              by_cases hkk : rowKey nm r = k
              · subst hkk
                rw [← hs]
                unfold assocRaw
                rw [lookupAssoc_bump_self _ _ _ _ p hla, hla]
                simp only []
                rw [addAmount_total]
                have hc : (rowKept nm r && (rowKey nm r == rowKey nm r)) = true := by
                  rw [hk]; simp
                rw [hc, if_pos rfl]
                ring
              · rw [← hs]
                unfold assocRaw
                rw [lookupAssoc_bump_ne _ _ _ _ (fun e => hkk e.symm)]
                have hcond : (rowKept nm r && (rowKey nm r == k)) = false := by
                  rw [(by simpa using hkk : (rowKey nm r == k) = false)]
                  simp
                rcases hlk : lookupAssoc acc k with _ | q <;> simp [hcond]
            · intro hf
              apply jh4
              rw [← hs]
              exact bumpAssoc_fields _ _ _ acc hf
      · -- the row is skipped
        rw [step_skip nm acc r hk] at hs
        simp only [Option.some.injEq] at hs
        subst hs
        obtain ⟨ih1, ih2, ih3, ih4⟩ := ih acc m h
        refine ⟨ih1, ?_, ?_, ih4⟩
        · rw [ih2, keptSum_cons, hk]
          simp
        · intro k
          rw [ih3 k, fiberSum_cons, hk]
          simp

/-- With an empty starting dict, total mass equals the kept rows' mass. -/
theorem processRows_total (nm : List (String × String)) (rows : List ProjRow)
    (m : List (String × Project)) (h : processRows nm rows [] = some m) :
    sumRaw m = keptSum nm rows := by
  have := (processRows_spec nm rows [] m h).2.1
  simpa [sumRaw] using this

/-- Every project `process_projects` emits carries the 2-decimal rounding of
the full-precision sum of the parsed amounts of the kept rows in its
`municipality|ac_code` group. -/
theorem process_projects_rounded (nm : List (String × String)) (rows : List ProjRow)
    (ps : List Project) (h : process_projects nm rows = some ps)
    (p : Project) (hp : p ∈ ps) :
    p.total_amount = pyRound2 (fiberSum nm rows (p.municipality ++ "|" ++ p.ac_code)) := by
  unfold process_projects at h
  rcases hm : processRows nm rows [] with _ | m
  · rw [hm] at h; simp at h
  · rw [hm] at h
    simp only [Option.map_some', Option.some.injEq] at h
    subst h
    rcases List.mem_map.mp hp with ⟨kp, hkp, rfl⟩
    obtain ⟨s1, _, s3, s4⟩ := processRows_spec nm rows [] m hm
    have hnd : (m.map Prod.fst).Nodup := s1 (by simp)
    have hflds : kp.1 = kp.2.municipality ++ "|" ++ kp.2.ac_code :=
      (s4 (by intro q hq; cases hq)) kp hkp
    have hlook := lookupAssoc_of_mem_nodup m kp hnd hkp
    have hassoc := s3 kp.1
    unfold assocRaw at hassoc
    rw [hlook] at hassoc
    simp only [lookupAssoc, List.find?_nil] at hassoc
    have htot : kp.2.total_amount = fiberSum nm rows kp.1 := by
      simpa using hassoc
    have hmun : (finalizeProject kp.2).municipality = kp.2.municipality := rfl
    have hac : (finalizeProject kp.2).ac_code = kp.2.ac_code := rfl
    rw [hmun, hac, ← hflds, ← htot]
    rfl

/-- A row whose parsed amount is non-positive is never kept. -/
theorem rowKept_nonpositive (nm : List (String × String)) (r : ProjRow)
    (h : rowAmount r ≤ 0) : rowKept nm r = false := by
  unfold rowKept
  rw [(by simpa using h : decide (rowAmount r ≤ 0) = true)]
  simp

/-- Dropping a row that every step skips does not change the row loop. -/
theorem processRows_drop_row (nm : List (String × String)) (r : ProjRow)
    (hr : ∀ acc, step nm acc r = some acc) :
    ∀ (xs ys : List ProjRow) (acc : List (String × Project)),
      processRows nm (xs ++ r :: ys) acc = processRows nm (xs ++ ys) acc := by
  intro xs
  induction xs with
  | nil =>
    intro ys acc
    simp only [List.nil_append, processRows, hr acc]
  | cons x xs ih =>
    intro ys acc
    simp only [List.cons_append, processRows]
    rcases hs : step nm acc x with _ | acc2
    · rfl
    · simp only []
      exact ih ys acc2

/-- A non-positive-amount row contributes nothing: `process_projects` with
and without it agree. -/
theorem process_projects_drop_nonpositive (nm : List (String × String))
    (xs ys : List ProjRow) (r : ProjRow) (h : rowAmount r ≤ 0) :
    process_projects nm (xs ++ r :: ys) = process_projects nm (xs ++ ys) := by
  unfold process_projects
  rw [processRows_drop_row nm r
    (fun acc => step_skip nm acc r (rowKept_nonpositive nm r h)) xs ys []]

theorem dictLookup_value_ok (m : List (String × String)) (k c : String)
    (hm : mapOk m = true) (h : dictLookup m k = some c) : (c == "") = false := by
  unfold dictLookup at h
  rcases hf : m.reverse.find? (fun p => p.1 == k) with _ | pr
  · rw [hf] at h; simp at h
  · rw [hf] at h
    simp only [Option.map_some', Option.some.injEq] at h
    have hmem : pr ∈ m := List.mem_reverse.mp (List.mem_of_find?_eq_some hf)
    have hall := (List.all_eq_true.mp hm) pr hmem
    simp only [Bool.and_eq_true] at hall
    rw [← h]
    simpa using hall.2

theorem dictLookup_empty (m : List (String × String)) (hm : mapOk m = true) :
    dictLookup m "" = none := by
  unfold dictLookup
  have hnone : m.reverse.find? (fun p => p.1 == "") = none := by
    rw [List.find?_eq_none]
    intro p hp
    have hall := (List.all_eq_true.mp hm) p (List.mem_reverse.mp hp)
    simp only [Bool.and_eq_true] at hall
    simpa using hall.1
  rw [hnone]
  rfl

theorem pyTok3_safe (s : String) (h : wsSafe s = true) : ∃ p, pyTok3 s = some p := by
  unfold pyTok3
  rcases Bool.eq_false_or_eq_true (pyContains s ' ') with hc | hc
  · rw [if_pos hc]
    unfold wsSafe at h
    rw [hc] at h
    simp only [Bool.not_true, Bool.false_or] at h
    rcases hl : pySplitWs s with _ | ⟨t, ts⟩
    · rw [hl] at h; simp at h
    · exact ⟨t, by simp⟩
  · rw [if_neg (by simp [hc])]
    exact ⟨_, rfl⟩

theorem pyTok2_safe (s : String) (h : wsSafe s = true) : ∃ p, pyTok2 s = some p := by
  unfold pyTok2
  rcases Bool.eq_false_or_eq_true (pyContains s ' ') with hc | hc
  · rw [if_pos hc]
    unfold wsSafe at h
    rw [hc] at h
    simp only [Bool.not_true, Bool.false_or] at h
    rcases hl : pySplitWs s with _ | ⟨t, ts⟩
    · rw [hl] at h; simp at h
    · exact ⟨t, by simp⟩
  · rw [if_neg (by simp [hc])]
    exact ⟨_, rfl⟩

theorem appendCat_nil_some (c : String) (h : (c == "") = false) :
    appendCat [] (some c) = [c] := by
  simp only [appendCat]
  rw [if_pos ?_]
  · rfl
  · simp [bne, h]

theorem appendCat_nil_len (e : Option String) :
    appendCat [] e = [] ∨ ∃ c, appendCat [] e = [c] := by
  rcases e with _ | c
  · exact Or.inl rfl
  · simp only [appendCat]
    rcases Bool.eq_false_or_eq_true ((c != "") && !(([] : List String).contains c))
      with h | h
    · rw [if_pos h]; exact Or.inr ⟨c, rfl⟩
    · rw [if_neg (by rw [h]; simp)]; exact Or.inl rfl

theorem classify_domain_stage (m : List (String × String)) (dom : String)
    (hm : mapOk m = true) (hdom : ¬ dom = "") (hds : wsSafe dom = true) :
    (if (appendCat ([] : List String) (dictLookup m dom)).isEmpty = true then
       match pyTok2 dom with
       | none => none
       | some p =>
         some (if (appendCat (appendCat [] (dictLookup m dom)) (dictLookup m p)).isEmpty = true
           then ["overige"]
           else appendCat (appendCat [] (dictLookup m dom)) (dictLookup m p))
     else some (appendCat [] (dictLookup m dom)))
    = some (match dictLookup m dom with
        | some c => [c]
        | none =>
          match (pyTok2 dom).bind (fun p => dictLookup m p) with
          | some c => [c]
          | none => ["overige"]) := by
  rcases hdl : dictLookup m dom with _ | c
  · obtain ⟨p, hp⟩ := pyTok2_safe dom hds
    rw [hp]
    simp only [appendCat, List.isEmpty_nil, if_true, Option.some_bind]
    rcases hdp : dictLookup m p with _ | c2
    · simp [appendCat]
    · have hc2 := dictLookup_value_ok m p c2 hm hdp
      simp [bne, hc2]
  · have hc := dictLookup_value_ok m dom c hm hdl
    rw [appendCat_nil_some c hc]
    simp

/-- Amended C1 core: over any mapping with non-empty keys and categories
(`POLICY_DOMAIN_MAPPING` is one), a non-empty primary key and keys whose
first token can be computed, the classifier equals the spec's
first-match-wins cascade. -/
theorem classify_matches_cascade (m : List (String × String)) (dom : String)
    (sub : Option String) (hm : mapOk m = true) (hdom : ¬ dom = "")
    (hds : wsSafe dom = true) (hss : optSafe sub = true) :
    classify_project_by_policy_domain m (some dom) sub
      = some (cascade_spec m dom sub) := by
  unfold classify_project_by_policy_domain cascade_spec
  rw [if_neg (by simp [pyTruthy, hdom])]
  rcases sub with _ | s
  · simp only [pyTruthy, Bool.false_eq_true, if_false, Option.getD_some,
      List.isEmpty_nil, if_true]
    exact classify_domain_stage m dom hm hdom hds
  · rcases Bool.eq_false_or_eq_true (s == "") with hse | hse
    · -- s = "": the secondary key is falsy, no subdomain stage runs
      have hs0 : s = "" := by simpa using hse
      subst hs0
      simp only [pyTruthy, Bool.not_true, Bool.false_eq_true, if_false,
        Option.getD_some, List.isEmpty_nil, if_true, hse]
      rw [dictLookup_empty m hm]
      have hp3 : pyTok3 "" = some "" := rfl
      rw [hp3]
      simp only [Option.some_bind]
      rw [dictLookup_empty m hm]
      exact classify_domain_stage m dom hm hdom hds
    · -- s is a real secondary key
      have hst : pyTruthy (some s) = true := by simp [pyTruthy, hse]
      simp only [hst, if_true, Option.getD_some]
      rcases hd1 : dictLookup m s with _ | c
      · -- no exact subdomain match
        simp only [appendCat, List.isEmpty_nil, if_true]
        obtain ⟨p, hp⟩ := pyTok3_safe s (by simpa [optSafe] using hss)
        rw [hp]
        simp only [Option.some_bind]
        rcases hd2 : dictLookup m p with _ | c2
        · -- no subdomain-code match either: fall through to the domain
          simp only [appendCat, List.isEmpty_nil, if_true]
          exact classify_domain_stage m dom hm hdom hds
        · have hc2 := dictLookup_value_ok m p c2 hm hd2
          simp [bne, hc2]
      · -- exact subdomain match wins
        have hc := dictLookup_value_ok m s c hm hd1
        rw [appendCat_nil_some c hc]
        simp

theorem domain_stage_len (m : List (String × String)) (d : String) (r : List String)
    (h : (if (appendCat ([] : List String) (dictLookup m d)).isEmpty = true then
       match pyTok2 d with
       | none => none
       | some p =>
         some (if (appendCat (appendCat [] (dictLookup m d)) (dictLookup m p)).isEmpty = true
           then ["overige"]
           else appendCat (appendCat [] (dictLookup m d)) (dictLookup m p))
     else some (appendCat [] (dictLookup m d))) = some r) : r.length = 1 := by
  rcases appendCat_nil_len (dictLookup m d) with hc | ⟨c, hc⟩
  · rw [hc] at h
    simp only [List.isEmpty_nil, if_true] at h
    rcases hp : pyTok2 d with _ | p
    · rw [hp] at h; simp at h
    · rw [hp] at h
      simp only [Option.some.injEq] at h
      rcases appendCat_nil_len (dictLookup m p) with hc2 | ⟨c2, hc2⟩
      · rw [hc2] at h
        simp only [List.isEmpty_nil, if_true] at h
        rw [← h]; rfl
      · rw [hc2] at h
        simp only [List.isEmpty_cons, Bool.false_eq_true, if_false] at h
        rw [← h]; rfl
  · rw [hc] at h
    simp only [List.isEmpty_cons, Bool.false_eq_true, if_false, Option.some.injEq] at h
    rw [← h]; rfl

/-- Implicit-claim C9 core: whenever the classifier returns at all, the
returned list has exactly one element, whatever the mapping and keys. -/
theorem classify_singleton (m : List (String × String)) (dom sub : Option String)
    (r : List String) (h : classify_project_by_policy_domain m dom sub = some r) :
    r.length = 1 := by
  unfold classify_project_by_policy_domain at h
  rcases Bool.eq_false_or_eq_true (pyTruthy dom) with hd | hd
  · rw [if_neg (by simp [hd])] at h
    simp only [] at h
    rcases Bool.eq_false_or_eq_true (pyTruthy sub) with hsub | hsub
    · rw [if_pos hsub] at h
      rcases appendCat_nil_len (dictLookup m (sub.getD "")) with hc | ⟨c, hc⟩
      · rw [hc] at h
        simp only [List.isEmpty_nil, if_true] at h
        rcases hp : pyTok3 (sub.getD "") with _ | p
        · rw [hp] at h; simp at h
        · rw [hp] at h
          simp only [] at h
          rcases appendCat_nil_len (dictLookup m p) with hc2 | ⟨c2, hc2⟩
          · rw [hc2] at h
            simp only [List.isEmpty_nil, if_true] at h
            exact domain_stage_len m (dom.getD "") r h
          · rw [hc2] at h
            simp only [List.isEmpty_cons, Bool.false_eq_true, if_false,
              Option.some.injEq] at h
            rw [← h]; rfl
      · rw [hc] at h
        simp only [List.isEmpty_cons, Bool.false_eq_true, if_false,
          Option.some.injEq] at h
        rw [← h]; rfl
    · rw [if_neg (by simp [hsub])] at h
      simp only [List.isEmpty_nil, if_true] at h
      exact domain_stage_len m (dom.getD "") r h
  · rw [if_pos (by simp [hd])] at h
    simp only [Option.some.injEq] at h
    rw [← h]; rfl

/-- C4 core: a missing or empty primary key short-circuits to the default
category, for every mapping and every secondary key. -/
theorem classify_empty_primary (m : List (String × String)) (sub : Option String) :
    classify_project_by_policy_domain m none sub = some ["overige"]
      ∧ classify_project_by_policy_domain m (some "") sub = some ["overige"] := by
  constructor <;> rfl

/-- An in-memory value handed to `json.dump`; `jBad` stands for an object the
serializer rejects mid-stream (e.g. a set, or a foreign scalar the sanitiser
missed), raising `TypeError` after earlier output was already written. -/
inductive JVal where
  | jNull : JVal
  | jBool : Bool → JVal
  | jNum : ℚ → JVal
  | jStr : String → JVal
  | jArr : List JVal → JVal
  | jObj : List (String × JVal) → JVal
  | jBad : JVal

/-- Number rendering (decimal text of a non-integral float is abstracted as
`num/den`; the theorems only exercise integral values). -/
def jsonNum (q : ℚ) : String :=
  if q.den = 1 then toString q.num else toString q.num ++ "/" ++ toString q.den

mutual
/-- `json.dump`'s streaming serialisation: the text written so far to the
(already truncated) file, and whether serialisation completed. -/
def dumpRun : JVal → String × Bool
  | JVal.jNull => ("null", true)
  | JVal.jBool b => (if b then "true" else "false", true)
  | JVal.jNum q => (jsonNum q, true)
  | JVal.jStr s => ("\x22" ++ s ++ "\x22", true)
  | JVal.jBad => ("", false)
  | JVal.jArr l =>
    let r := dumpItems l true
    if r.2 then ("[" ++ r.1 ++ "]", true) else ("[" ++ r.1, false)
  | JVal.jObj l =>
    let r := dumpFields l true
    if r.2 then ("\x7b" ++ r.1 ++ "\x7d", true) else ("\x7b" ++ r.1, false)

/-- Array elements, `", "`-separated, stopping at the first failure. -/
def dumpItems : List JVal → Bool → String × Bool
  | [], _ => ("", true)
  | v :: rest, first =>
    let sep := if first then "" else ", "
    let rv := dumpRun v
    if rv.2 then
      let rr := dumpItems rest false
      (sep ++ rv.1 ++ rr.1, rr.2)
    else (sep ++ rv.1, false)

/-- Object fields, `", "`-separated, stopping at the first failure. -/
def dumpFields : List (String × JVal) → Bool → String × Bool
  | [], _ => ("", true)
  | kv :: rest, first =>
    let sep := if first then "" else ", "
    let rv := dumpRun kv.2
    if rv.2 then
      let rr := dumpFields rest false
      (sep ++ "\x22" ++ kv.1 ++ "\x22: " ++ rv.1 ++ rr.1, rr.2)
    else (sep ++ "\x22" ++ kv.1 ++ "\x22: " ++ rv.1, false)
end

/-- Write (or overwrite) one path of a path–content file system. -/
def setFS : List (String × String) → String → String → List (String × String)
  | [], p, c => [(p, c)]
  | e :: rest, p, c => if e.1 == p then (p, c) :: rest else e :: setFS rest p c

/-- Read one path of the file system. -/
def getFS (fs : List (String × String)) (p : String) : Option String :=
  (fs.find? (fun e => e.1 == p)).map (fun e => e.2)

/-- `RESULTS_DIR` of `process_vergunningen.py`, as a path prefix. -/
def RESULTS_DIR : String := "results/"

/-- `PUBLIC_DATA_DIR` of `process_vergunningen.py`, as a path prefix. -/
def PUBLIC_DATA_DIR : String := "public/data/vergunningen-aanvragen/"

/-- `write_json` of `process_vergunningen.py`: `open(..., "w")` truncates the
results file and `json.dump` streams into it; on success the same is done for
the public copy.  A failing serialisation leaves the partial stream in the
file being written and propagates the exception. -/
def write_json (fs : List (String × String)) (filename : String) (data : JVal) :
    List (String × String) :=
  let r := dumpRun data
  let fs1 := setFS fs (RESULTS_DIR ++ filename) r.1
  if r.2 then setFS fs1 (PUBLIC_DATA_DIR ++ filename) r.1 else fs1

theorem getFS_set_self (p c : String) :
    ∀ fs : List (String × String), getFS (setFS fs p c) p = some c := by
  intro fs
  induction fs with
  | nil => simp [setFS, getFS, List.find?_cons]
  | cons e rest ih =>
    unfold setFS
    rcases Bool.eq_false_or_eq_true (e.1 == p) with he | he
    · rw [if_pos he]
      simp [getFS, List.find?_cons]
    · rw [if_neg (by simp [he])]
      unfold getFS
      simp only [List.find?_cons, he, cond_false]
      exact ih

theorem getFS_set_ne (p p2 c : String) (hne : ¬ (p2 = p)) :
    ∀ fs : List (String × String), getFS (setFS fs p c) p2 = getFS fs p2 := by
  intro fs
  induction fs with
  | nil =>
    simp only [setFS, getFS, List.find?_cons,
      (by simpa using fun e => hne e.symm : (p == p2) = false), cond_false,
      List.find?_nil]
  | cons e rest ih =>
    unfold setFS
    rcases Bool.eq_false_or_eq_true (e.1 == p) with he | he
    · rw [if_pos he]
      unfold getFS
      have h2 : (p == p2) = false := by simpa using fun e => hne e.symm
      have h3 : (e.1 == p2) = false := by
        have : e.1 = p := by simpa using he
        rw [this]
        exact h2
      simp only [List.find?_cons, h2, h3, cond_false]
    · rw [if_neg (by simp [he])]
      unfold getFS
      rcases Bool.eq_false_or_eq_true (e.1 == p2) with h2 | h2
      · simp only [List.find?_cons, h2, cond_true]
      · simp only [List.find?_cons, h2, cond_false]
        exact ih

theorem results_ne_public (f : String) : ¬ (RESULTS_DIR ++ f = PUBLIC_DATA_DIR ++ f) := by
  intro h
  have hl := congrArg String.length h
  simp only [String.length_append] at hl
  have h1 : RESULTS_DIR.length = 8 := rfl
  have h2 : PUBLIC_DATA_DIR.length = 35 := rfl
  rw [h1, h2] at hl
  omega

/-- C7 amended core: the results file always ends up holding exactly the
streamed text (the whole payload on success, the partial stream on failure —
never its previous contents), and on success the public copy holds the whole
payload too. -/
theorem write_json_spec (fs : List (String × String)) (filename : String) (data : JVal) :
    getFS (write_json fs filename data) (RESULTS_DIR ++ filename) = some (dumpRun data).1
      ∧ ((dumpRun data).2 = true →
          getFS (write_json fs filename data) (PUBLIC_DATA_DIR ++ filename)
            = some (dumpRun data).1) := by
  unfold write_json
  rcases Bool.eq_false_or_eq_true (dumpRun data).2 with hr | hr
  · rw [if_pos hr]
    constructor
    · rw [getFS_set_ne _ _ _ (results_ne_public filename), getFS_set_self]
    · intro _
      rw [getFS_set_self]
  · rw [if_neg (by simp [hr])]
    constructor
    · rw [getFS_set_self]
    · intro hc
      rw [hr] at hc
      cases hc

/-- The retry loop of `download_with_requests`
(`vergunningen-goedkeuringen/src/process_data.py`).  `outcome n` is whether
attempt `n` succeeds; the arguments are attempts remaining, the current
attempt number, and the current `retry_delay`.  Result: (success, attempts
made, delays slept); on a failed non-final attempt the loop sleeps the
current delay and doubles it. -/
def download_loop (outcome : Nat → Bool) : Nat → Nat → Nat → Bool × Nat × List Nat
  | 0, _, _ => (false, 0, [])
  | Nat.succ remaining, attempt, delay =>
    if outcome attempt then (true, 1, [])
    else if remaining = 0 then (false, 1, [])
    else
      let r := download_loop outcome remaining (attempt + 1) (2 * delay)
      (r.1, r.2.1 + 1, delay :: r.2.2)

/-- `download_with_requests`: `max_retries = 2`, initial `retry_delay = 2`. -/
def download_with_requests (outcome : Nat → Bool) : Bool × Nat × List Nat :=
  download_loop outcome 2 1 2

theorem download_loop_attempts (outcome : Nat → Bool) :
    ∀ rem att d, (download_loop outcome rem att d).2.1 ≤ rem := by
  intro rem
  induction rem with
  | zero => intro att d; simp [download_loop]
  | succ n ih =>
    intro att d
    unfold download_loop
    rcases Bool.eq_false_or_eq_true (outcome att) with h | h
    · rw [if_pos h]
      simp
    · rw [if_neg (by simp [h])]
      by_cases hn : n = 0
      · rw [if_pos hn]
        simp
      · rw [if_neg hn]
        have := ih (att + 1) (2 * d)
        simp only []
        omega

theorem download_loop_delays (outcome : Nat → Bool) :
    ∀ rem att d, ∃ k, (download_loop outcome rem att d).2.2
        = (List.range k).map (fun i => d * 2 ^ i) := by
  intro rem
  induction rem with
  | zero => intro att d; exact ⟨0, by simp [download_loop]⟩
  | succ n ih =>
    intro att d
    unfold download_loop
    rcases Bool.eq_false_or_eq_true (outcome att) with h | h
    · rw [if_pos h]; exact ⟨0, by simp⟩
    · rw [if_neg (by simp [h])]
      by_cases hn : n = 0
      · rw [if_pos hn]; exact ⟨0, by simp⟩
      · rw [if_neg hn]
        obtain ⟨k, hk⟩ := ih (att + 1) (2 * d)
        refine ⟨k + 1, ?_⟩
        show d :: (download_loop outcome n (att + 1) (2 * d)).2.2 = _
        rw [hk]
        simp only [List.range_succ_eq_map, List.map_cons, List.map_map, pow_zero, mul_one]
        congr 1
        apply List.map_congr_left
        intro i _
        simp only [Function.comp_apply]
        rw [pow_succ]
        ring

theorem chain_doubling_aux :
    ∀ (k d : Nat), List.Chain' (fun a b : Nat => b = 2 * a)
      (d :: (List.range k).map (fun i => 2 * d * 2 ^ i)) := by
  intro k
  induction k with
  | zero => intro d; simp
  | succ n ih =>
    intro d
    have hsplit : (List.range (n + 1)).map (fun i => 2 * d * 2 ^ i)
        = (2 * d) :: (List.range n).map (fun i => 2 * (2 * d) * 2 ^ i) := by
      rw [List.range_succ_eq_map, List.map_cons, List.map_map]
      simp only [pow_zero, mul_one]
      congr 1
      apply List.map_congr_left
      intro i _
      simp only [Function.comp_apply]
      rw [pow_succ]
      ring
    rw [hsplit]
    exact List.Chain'.cons (by ring) (ih (2 * d))

/-- Each slept delay is double the previous one. -/
theorem download_delays_chain (outcome : Nat → Bool) (rem att d : Nat) :
    List.Chain' (fun a b => b = 2 * a) ((download_loop outcome rem att d).2.2) := by
  obtain ⟨k, hk⟩ := download_loop_delays outcome rem att d
  rw [hk]
  rcases k with _ | k2
  · simp
  · have hsplit : (List.range (k2 + 1)).map (fun i => d * 2 ^ i)
        = d :: (List.range k2).map (fun i => 2 * d * 2 ^ i) := by
      rw [List.range_succ_eq_map, List.map_cons, List.map_map]
      simp only [pow_zero, mul_one]
      congr 1
      apply List.map_congr_left
      intro i _
      simp only [Function.comp_apply]
      rw [pow_succ]
      ring
    rw [hsplit]
    exact chain_doubling_aux k2 d

/-- When every attempt fails, the downloader stops after exactly the two
attempts, having slept once for 2 seconds, and reports failure. -/
theorem download_all_fail (outcome : Nat → Bool) (h : ∀ i, outcome i = false) :
    download_with_requests outcome = (false, 2, [2]) := by
  simp [download_with_requests, download_loop, h 1, h 2]

/-! ## Concrete instances used by the claim witnesses and counterexamples -/

/-- The `nis_to_name` lookup of a single municipality. -/
def nmEx : List (String × String) := [("44021", "Gent")]

/-- A row that passes every guard of `process_projects`. -/
def projRowGood : ProjRow :=
  ⟨some 44021, "06 Wonen en ruimtelijke ordening", "", some "AC1", some "bouw", none,
    PyVal.vNum 5, 2026⟩

/-- A row with a positive amount but an unknown NIS code. -/
def projRowEx : ProjRow :=
  ⟨some 99999, "06 Wonen en ruimtelijke ordening", "", some "AC1", some "bouw", none,
    PyVal.vNum 5, 2026⟩

/-- The project map built from the single kept row. -/
def projMapEx : List (String × Project) := (processRows nmEx [projRowGood] []).getD []

/-- The exported project list of the single kept row. -/
def projOut : List Project := (process_projects nmEx [projRowGood]).getD []

/-- The one exported project. -/
def projEx : Project := projOut.headD (mkProject "" "" "" "" "" "" "" [])

/-- One employment record with measure 1. -/
def empOne : EmpRecord := ⟨2020, "arbeiders", "mannen", some 1⟩

/-- The one exported employment row of `[empOne]`. -/
def rowEx : EmpAggRow := (aggregate_time_series [empOne]).headD ⟨0, "", "", 0⟩

/-- One employment record with the fractional measure 1/2. -/
def empHalf : EmpRecord := ⟨2020, "arbeiders", "mannen", some ((1 : ℚ)/2)⟩

/-- Two EPC rows in two different years. -/
def epcDf : List EpcRecord :=
  [⟨2020, "Appartement", "A", 1⟩, ⟨2021, "Appartement", "A", 1⟩]

/-- An empty spreadsheet header row. -/
def fillerRow : ExcelRow := ⟨PyVal.vNone, PyVal.vNone⟩

/-- A province row whose measure cell is non-numeric text. -/
def badRow : ExcelRow := ⟨PyVal.vStr "Antwerpen", PyVal.vStr "abc"⟩

/-- A province row with a valid numeric measure. -/
def goodRow : ExcelRow := ⟨PyVal.vStr "Antwerpen", PyVal.vNum 7⟩

/-- The seven header rows preceding the data in each sheet. -/
def headerRows : List ExcelRow :=
  [fillerRow, fillerRow, fillerRow, fillerRow, fillerRow, fillerRow, fillerRow]

/-- A file system whose results file holds earlier output. -/
def fsOld : List (String × String) := [("results/x.json", "old")]

/-- A payload whose second element the serializer rejects mid-stream. -/
def badData : JVal := JVal.jArr [JVal.jNull, JVal.jBad]

/-! ## The claims -/

/-- C1: For a mapping whose keys and categories are non-empty (the
repository's `POLICY_DOMAIN_MAPPING` is one), a non-empty primary key, and
keys whose first token exists when they contain a space, the classifier
follows the spec's four-stage first-match-wins cascade ending in the default
category; in particular the spec's example — primary key
"06 Wonen en ruimtelijke ordening", no secondary key, mapping containing
"06" mapped to "housing" — yields exactly ["housing"] via the prefix stage,
the exact-match stage having found nothing. -/
theorem C1_policy_cascade_order (m : List (String × String)) (dom : String)
    (sub : Option String) (hm : mapOk m = true) (hdom : ¬ dom = "")
    (hds : wsSafe dom = true) (hss : optSafe sub = true) :
    classify_project_by_policy_domain m (some dom) sub = some (cascade_spec m dom sub)
      ∧ classify_project_by_policy_domain [("06", "housing")]
          (some "06 Wonen en ruimtelijke ordening") none = some ["housing"]
      ∧ dictLookup [("06", "housing")] "06 Wonen en ruimtelijke ordening" = none :=
  ⟨classify_matches_cascade m dom sub hm hdom hds hss, rfl, rfl⟩

/-- Witness for C1 at the repository's mapping and the spec's example key. -/
theorem C1_policy_cascade_order_witness :
    (classify_project_by_policy_domain POLICY_DOMAIN_MAPPING
        (some "06 Wonen en ruimtelijke ordening") none
      = some (cascade_spec POLICY_DOMAIN_MAPPING "06 Wonen en ruimtelijke ordening" none))
      ∧ classify_project_by_policy_domain [("06", "housing")]
          (some "06 Wonen en ruimtelijke ordening") none = some ["housing"]
      ∧ dictLookup [("06", "housing")] "06 Wonen en ruimtelijke ordening" = none :=
  C1_policy_cascade_order POLICY_DOMAIN_MAPPING "06 Wonen en ruimtelijke ordening" none
    rfl (by decide) rfl rfl

/-- Counterexample for C1 as stated: a whitespace-only primary key makes the
domain-prefix computation raise IndexError instead of reaching the default
stage, while the spec's cascade returns the default category. -/
theorem C1_whitespace_key_crash :
    classify_project_by_policy_domain POLICY_DOMAIN_MAPPING (some " ") none = none
      ∧ cascade_spec POLICY_DOMAIN_MAPPING " " none = ["overige"] :=
  ⟨rfl, rfl⟩

/-- C2: Grouped aggregation conserves the null-skipping sum of the measures
in the employment aggregator; in the municipal-projects processor the raw
mass of the project map equals the sum over the kept rows only — rows failing
its guards are excluded even when their measure is non-null, so conservation
holds relative to the kept rows, not to all rows with a non-null measure. -/
theorem C2_grouping_conserves_mass (rs : List EmpRecord) (nm : List (String × String))
    (rows : List ProjRow) (m : List (String × Project))
    (h : processRows nm rows [] = some m) :
    ((empGroups rs).map Prod.snd).sum = optSum (rs.map EmpRecord.count)
      ∧ sumRaw m = keptSum nm rows :=
  ⟨empGroups_conserves rs, processRows_total nm rows m h⟩

/-- Witness for C2 on one-record inputs. -/
theorem C2_grouping_conserves_mass_witness :
    ((empGroups [empOne]).map Prod.snd).sum = optSum ([empOne].map EmpRecord.count)
      ∧ sumRaw projMapEx = keptSum nmEx [projRowGood] :=
  C2_grouping_conserves_mass [empOne] nmEx [projRowGood] projMapEx rfl

/-- Counterexample for C2 as stated: a row carrying the non-null measure 5
but an unknown NIS code is dropped by `process_projects`, so its aggregates
sum to 0, not to the sum over rows with a non-null measure. -/
theorem C2_unknown_municipality_loses_mass :
    process_projects nmEx [projRowEx] = some []
      ∧ parse_dutch_number projRowEx.uitgave = 5
      ∧ sumRaw ((processRows nmEx [projRowEx] []).getD []) = 0 :=
  ⟨rfl, rfl, rfl⟩

/-- C3: The exported employment time series is sorted ascending by its
declared (year, type, gender) key tuple, compared lexicographically. -/
theorem C3_series_sorted_ascending (rs : List EmpRecord) :
    List.Sorted empRowLe (aggregate_time_series rs) :=
  aggregate_time_series_sorted rs

/-- Counterexample for C3 over all analyses: `residential_aa_by_year_building`
iterates `sorted(..., reverse=True)`, so the EPC output series is emitted in
descending year order and is not sorted ascending by its key. -/
theorem C3_epc_series_descending :
    (residential_aa_by_year_building epcDf).map EpcEntry.year = [2021, 2020]
      ∧ ¬ List.Sorted intLe ((residential_aa_by_year_building epcDf).map EpcEntry.year) := by
  refine ⟨rfl, ?_⟩
  show ¬ List.Sorted intLe [(2021 : Int), 2020]
  intro hs
  have h := List.rel_of_sorted_cons hs 2020 (List.mem_singleton_self 2020)
  exact absurd h (by decide)

/-- C4: For every mapping and every secondary key — present or not, matching
or not — a missing or empty primary key short-circuits to exactly the single
default category "overige", without consulting the secondary key. -/
theorem C4_empty_primary_default (m : List (String × String)) (sub : Option String) :
    classify_project_by_policy_domain m none sub = some ["overige"]
      ∧ classify_project_by_policy_domain m (some "") sub = some ["overige"] :=
  classify_empty_primary m sub

/-- C5: The municipal-projects exporter rounds each full-precision group sum
to 2 decimals at the point of export; the employment exporter instead casts
every group sum with `int()`, truncating toward zero rather than rounding to
2 decimals, so the uniform numeric policy holds only for the former. -/
theorem C5_export_rounding (nm : List (String × String)) (rows : List ProjRow)
    (ps : List Project) (h : process_projects nm rows = some ps)
    (p : Project) (hp : p ∈ ps) (rs : List EmpRecord) (row : EmpAggRow)
    (hrow : row ∈ aggregate_time_series rs) :
    p.total_amount = pyRound2 (fiberSum nm rows (p.municipality ++ "|" ++ p.ac_code))
      ∧ row.count = pyIntOf (optSum ((rs.filter
          (fun r => decide (empKey r = empRowKey row))).map EmpRecord.count)) :=
  ⟨process_projects_rounded nm rows ps h p hp, aggregate_time_series_count rs row hrow⟩

/-- Witness for C5 on one-row inputs. -/
theorem C5_export_rounding_witness :
    projEx.total_amount
        = pyRound2 (fiberSum nmEx [projRowGood] (projEx.municipality ++ "|" ++ projEx.ac_code))
      ∧ rowEx.count = pyIntOf (optSum (([empOne].filter
          (fun r => decide (empKey r = empRowKey rowEx))).map EmpRecord.count)) :=
  C5_export_rounding nmEx [projRowGood] projOut rfl projEx (List.mem_singleton_self projEx)
    [empOne] rowEx (List.mem_singleton_self rowEx)

/-- Counterexample for C5 as stated: an employment group summing to 1/2 is
exported as the integer 0 by the `int()` cast, while rounding the sum to 2
decimals keeps 1/2 — the exported measure is not the 2-decimal rounding. -/
theorem C5_int_cast_loses_fraction :
    (aggregate_time_series [empHalf]).map EmpAggRow.count = [(0 : Int)]
      ∧ pyRound2 (optSum ([empHalf].map EmpRecord.count)) = 1/2
      ∧ ¬ (((0 : Int) : ℚ) = 1/2) := by
  refine ⟨?_, ?_, by norm_num⟩
  · show [pyIntOf (optSum (([empHalf].filter (fun r => decide (empKey r
        = ((2020 : Int), "arbeiders", "mannen")))).map EmpRecord.count))] = [(0 : Int)]
    have h1 : optSum (([empHalf].filter (fun r => decide (empKey r
        = ((2020 : Int), "arbeiders", "mannen")))).map EmpRecord.count) = 1/2 := by
      simp [optSum, empHalf, empKey]
    rw [h1]
    have h2 : pyIntOf ((1 : ℚ)/2) = 0 := by
      unfold pyIntOf
      rw [if_neg (by norm_num)]
      norm_num
    rw [h2]
  · have h0 : optSum ([empHalf].map EmpRecord.count) = 1/2 := by simp [optSum, empHalf]
    rw [h0]
    simp only [pyRound2, roundHalfEven]
    norm_num

/-- C6: A sheet row whose measure cell holds non-empty text that `float()`
rejects is skipped while the scan continues over the remaining rows, and the
Dutch-number parser maps missing and unparseable amounts to 0 instead of
raising, so an unparseable individual value never aborts processing. -/
theorem C6_unparseable_value_recovered (year : Int) (rtype gender : String)
    (xs ys : List ExcelRow) (bad : ExcelRow) (h7 : 7 ≤ xs.length)
    (hbad : unparseableCell bad.colU = true) :
    processSheet year rtype gender (xs ++ bad :: ys)
        = processSheet year rtype gender (xs ++ ys)
      ∧ parse_dutch_number PyVal.vNone = 0
      ∧ (∀ s : String,
          (pyFloat (pyReplace (pyReplace (pyStrip s) "." "") "," ".")).isNone = true →
            parse_dutch_number (PyVal.vStr s) = 0) := by
  refine ⟨?_, rfl, ?_⟩
  · unfold processSheet
    rw [List.drop_append_of_le_length h7, List.drop_append_of_le_length h7]
    exact processSheetRows_skip year rtype gender (xs.drop 7) ys bad hbad
  · intro s h
    show (pyFloat (pyReplace (pyReplace (pyStrip s) "." "") "," ".")).getD 0 = 0
    rw [Option.isNone_iff_eq_none.mp h]
    rfl

/-- Witness for C6: a sheet with an unparseable cell in a data row. -/
theorem C6_unparseable_value_recovered_witness :
    (processSheet 2020 "arbeiders" "mannen" (headerRows ++ badRow :: [goodRow])
        = processSheet 2020 "arbeiders" "mannen" (headerRows ++ [goodRow]))
      ∧ parse_dutch_number PyVal.vNone = 0
      ∧ (∀ s : String,
          (pyFloat (pyReplace (pyReplace (pyStrip s) "." "") "," ".")).isNone = true →
            parse_dutch_number (PyVal.vStr s) = 0) :=
  C6_unparseable_value_recovered 2020 "arbeiders" "mannen" headerRows [goodRow] badRow
    (by decide) rfl

/-- C7: `write_json` truncates its destination with `open(..., "w")` before
`json.dump` streams into it, so the results file always ends holding exactly
the streamed text — the complete payload on success (the public copy too),
but a partial payload when serialisation fails mid-stream, in which case the
previous contents are destroyed rather than left intact. -/
theorem C7_write_full_payload (fs : List (String × String)) (filename : String)
    (data : JVal) :
    getFS (write_json fs filename data) (RESULTS_DIR ++ filename) = some (dumpRun data).1
      ∧ ((dumpRun data).2 = true →
          getFS (write_json fs filename data) (PUBLIC_DATA_DIR ++ filename)
            = some (dumpRun data).1) :=
  write_json_spec fs filename data

/-- Counterexample for C7 as stated: serialising an array whose second
element the serializer rejects fails after writing the opening text, and the
results file that previously held "old" is left with the partial stream. -/
theorem C7_partial_write_observed :
    (dumpRun badData).2 = false
      ∧ getFS (write_json fsOld "x.json" badData) "results/x.json" = some "[null, "
      ∧ ¬ (("[null, " : String) = "old") :=
  ⟨rfl, rfl, by decide⟩

/-- C8: The downloader's retry loop never makes more attempts than its fixed
bound, each slept delay is double the previous one, and when every attempt
fails `download_with_requests` (bound 2, initial delay 2) terminates after
exactly two attempts with a failure result, having slept once for 2 seconds. -/
theorem C8_retry_bounded_backoff (outcome : Nat → Bool) (rem att d : Nat)
    (h : ∀ i, outcome i = false) :
    (download_loop outcome rem att d).2.1 ≤ rem
      ∧ List.Chain' (fun a b => b = 2 * a) ((download_loop outcome rem att d).2.2)
      ∧ download_with_requests outcome = (false, 2, [2]) :=
  ⟨download_loop_attempts outcome rem att d, download_delays_chain outcome rem att d,
    download_all_fail outcome h⟩

/-- Witness for C8 with every attempt failing. -/
theorem C8_retry_bounded_backoff_witness :
    (download_loop (fun _ => false) 2 1 2).2.1 ≤ 2
      ∧ List.Chain' (fun a b => b = 2 * a) ((download_loop (fun _ => false) 2 1 2).2.2)
      ∧ download_with_requests (fun _ => false) = (false, 2, [2]) :=
  C8_retry_bounded_backoff (fun _ => false) 2 1 2 (fun _ => rfl)

/-- C9: Whenever the classifier returns a list at all, that list has exactly
one element — never zero and never more than one — for every mapping and
every key pair; the qualification is needed because some key pairs make it
raise instead of returning. -/
theorem C9_single_category (m : List (String × String)) (dom sub : Option String)
    (r : List String) (h : classify_project_by_policy_domain m dom sub = some r) :
    r.length = 1 :=
  classify_singleton m dom sub r h

/-- Witness for C9 at the repository mapping on a subdomain-prefix match. -/
theorem C9_single_category_witness : (["sport"] : List String).length = 1 :=
  C9_single_category POLICY_DOMAIN_MAPPING (some "06 Wonen en ruimtelijke ordening")
    (some "074 Sport") ["sport"] rfl

/-- Counterexample for the universal reading of C9: a whitespace-only
secondary key makes `split()[0]` raise IndexError, so the classifier returns
no category list at all. -/
theorem C9_whitespace_subkey_no_result :
    classify_project_by_policy_domain POLICY_DOMAIN_MAPPING (some "x y") (some " ")
      = none :=
  rfl

/-- C10: Dropping any row whose parsed amount is non-positive leaves the
output of `process_projects` unchanged; the Dutch-number parser maps missing
and unparseable amounts to 0 (never raising); only rows with a strictly
positive parsed amount are kept; and the raw aggregate mass equals the sum
over the kept rows — i.e. over rows with strictly positive parsed amount,
not over all rows with a non-null measure. -/
theorem C10_nonpositive_rows_skipped :
    (∀ (nm : List (String × String)) (xs ys : List ProjRow) (r : ProjRow),
        rowAmount r ≤ 0 →
          process_projects nm (xs ++ r :: ys) = process_projects nm (xs ++ ys))
      ∧ parse_dutch_number PyVal.vNone = 0
      ∧ (∀ s : String,
          (pyFloat (pyReplace (pyReplace (pyStrip s) "." "") "," ".")).isNone = true →
            parse_dutch_number (PyVal.vStr s) = 0)
      ∧ (∀ (nm : List (String × String)) (r : ProjRow),
          rowKept nm r = true → 0 < rowAmount r)
      ∧ (∀ (nm : List (String × String)) (rows : List ProjRow)
            (m : List (String × Project)),
          processRows nm rows [] = some m → sumRaw m = keptSum nm rows) := by
  refine ⟨fun nm xs ys r h => process_projects_drop_nonpositive nm xs ys r h, rfl,
    ?_, ?_, fun nm rows m h => processRows_total nm rows m h⟩
  · intro s h
    show (pyFloat (pyReplace (pyReplace (pyStrip s) "." "") "," ".")).getD 0 = 0
    rw [Option.isNone_iff_eq_none.mp h]
    rfl
  · intro nm r h
    unfold rowKept at h
    simp only [Bool.and_eq_true, Bool.not_eq_true', decide_eq_false_iff_not] at h
    exact lt_of_not_le h.2
